import Mathlib

/-- Two-dimensional array of rationals, indexed by natural numbers. -/
abbrev Mat : Type := ℕ → ℕ → ℚ

/-- Three-dimensional array of rationals. -/
abbrev Ten3 : Type := ℕ → ℕ → ℕ → ℚ

/-- Errors the Python code can raise: the missing-data `Exception` in
`log_likelihoods`/`m_step`, `ValueError` (numpy shape/empty errors and
`npr.choice` on an empty list), `AttributeError` (reading a nonexistent
attribute), and `AssertionError` (failed `assert` statements in setters). -/
inductive SSMError where
  | missingData
  | valueError
  | attributeError
  | assertionError
deriving DecidableEq, Repr

/-- Shared parameters of `_AutoRegressiveObservationsBase`: counts `K`, `D`,
`M`, `lags`, the initial means `mu_init` (K×D), the dense per-state lag
coefficients `As` (K × D × D·lags), biases `bs` (K×D) and input couplings
`Vs` (K × D × M). -/
structure ARParams where
  K : ℕ
  D : ℕ
  M : ℕ
  lags : ℕ
  mu_init : Mat
  As : Ten3
  bs : Mat
  Vs : Ten3

namespace ARParams

/-- One lag term of the accumulation in `_compute_mus`:
`np.dot(data[self.lags-l-1:-l-1], Al.T)` at AR-region row `i` and output
dimension `d`, where `Al = A[:, l*D:(l+1)*D]`. -/
def lagTerm (p : ARParams) (data : Mat) (k i d l : ℕ) : ℚ :=
  ∑ j ∈ Finset.range p.D, data (p.lags - l - 1 + i) j * p.As k d (l * p.D + j)

/-- The loop in `_compute_mus` accumulating `mus_k_ar`: it starts from the
instantaneous input term `np.dot(input[self.lags:, :M], V.T)` and adds the
lag terms for `l in range(self.lags)` in order. -/
def musArAcc (p : ARParams) (data input : Mat) (k i d : ℕ) : ℕ → ℚ
  | 0 => ∑ m ∈ Finset.range p.M, input (p.lags + i) m * p.Vs k d m
  | l + 1 => p.musArAcc data input k i d l + p.lagTerm data k i d l

/-- Value of `mus_k_ar[i, d]` for state `k` after the lag loop and the final
`+ b` in `_compute_mus` (AR-region row `i` corresponds to time `lags + i`). -/
def musAR (p : ARParams) (data input : Mat) (k i d : ℕ) : ℚ :=
  p.musArAcc data input k i d p.lags + p.bs k d

/-- Entry `(k, t, d)` of the array returned by
`_AutoRegressiveObservationsBase._compute_mus`: the first `lags` rows are
`mu0 * np.ones((lags, D))`, the remaining rows come from the AR recursion
(`np.vstack((mus_k_init, mus_k_ar))`). -/
def computeMus (p : ARParams) (data input : Mat) (k t d : ℕ) : ℚ :=
  if t < p.lags then p.mu_init k d
  else p.musAR data input k (t - p.lags) d

end ARParams

/-- Concrete parameters used in witnesses: K=1, D=1, M=1, lags=1,
`mu_init = 7`, `A = 1/2`, `b = 1`, `V = 3`. -/
def pW : ARParams :=
  { K := 1, D := 1, M := 1, lags := 1
    mu_init := fun _ _ => 7
    As := fun _ _ _ => 1/2
    bs := fun _ _ => 1
    Vs := fun _ _ _ => 3 }

/-- Concrete data sequence for witnesses: `data[t][d] = t + 1`. -/
def dataW : Mat := fun t _ => (t : ℚ) + 1

/-- Concrete input sequence for witnesses: `input[t][m] = t`. -/
def inputW : Mat := fun t _ => (t : ℚ)

/-- Entry `(i, j)` of a nested-list matrix, defaulting to `0` out of range. -/
def get2 (a : List (List ℚ)) (i j : ℕ) : ℚ :=
  (a.getD i []).getD j 0

/-- Entry `(i, j, l)` of a nested-list rank-3 array, defaulting to `0`. -/
def get3 (a : List (List (List ℚ))) (i j l : ℕ) : ℚ :=
  ((a.getD i []).getD j []).getD l 0

/-- The array returned by `_AutoRegressiveObservationsBase._compute_mus` as a
nested list: for each state `k` (outer axis), `lags` initial-mean rows
followed by the `T - lags` AR rows, each row of length `D`.  The resulting
shape is `(K, T, D)`. -/
def computeMusArr (p : ARParams) (data input : Mat) (T : ℕ) :
    List (List (List ℚ)) :=
  (List.range p.K).map fun k =>
    ((List.range p.lags).map fun _ =>
        (List.range p.D).map fun d => p.mu_init k d)
      ++ ((List.range (T - p.lags)).map fun i =>
        (List.range p.D).map fun d => p.musAR data input k i d)

/-- Parameters of `IndependentAutoRegressiveObservations` relevant to the
mean predictor: `_As` holds the compressed per-dimension lag scalars
(K × D × lags); the dense form is exposed through the derived `As` getter. -/
structure IndepParams where
  K : ℕ
  D : ℕ
  M : ℕ
  lags : ℕ
  mu_init : Mat
  _As : Ten3
  bs : Mat
  Vs : Ten3

namespace IndepParams

/-- The `As` property getter of `IndependentAutoRegressiveObservations`:
`np.column_stack([np.diag(Ak[:,l]) for l in range(lags)])` per state, so
entry `(d, c)` with `c = l·D + j` is `_As[k][d][l]` when `j = d` and `0`
otherwise. -/
def AsFull (q : IndepParams) (k d c : ℕ) : ℚ :=
  if c % q.D = d then q._As k d (c / q.D) else 0

/-- View of the independent variant through the shared base parameterization,
with the dense `As` given by the property getter. -/
def toBase (q : IndepParams) : ARParams :=
  { K := q.K, D := q.D, M := q.M, lags := q.lags
    mu_init := q.mu_init, As := q.AsFull, bs := q.bs, Vs := q.Vs }

/-- The accumulation in `IndependentAutoRegressiveObservations._compute_mus`:
`mus = np.matmul(Vs[None, ...], input[lags:, None, :M, None])[...]` followed
by `mus += As[:, :, l] * data[lags-l-1:-l-1, None, :]` for each lag `l`.
Note the source reads `As[:, :, l]` from the dense property getter, i.e.
column `l` of the full (D × D·lags) matrix, not the compressed `_As`. -/
def indepMusArAcc (q : IndepParams) (data input : Mat) (k i d : ℕ) : ℕ → ℚ
  | 0 => ∑ m ∈ Finset.range q.M, q.Vs k d m * input (q.lags + i) m
  | l + 1 => q.indepMusArAcc data input k i d l
      + q.AsFull k d l * data (q.lags - l - 1 + i) d

/-- AR-region entry `(i, k, d)` of the independent `_compute_mus` (after the
final `mus += bs`). -/
def indepMusAR (q : IndepParams) (data input : Mat) (k i d : ℕ) : ℚ :=
  q.indepMusArAcc data input k i d q.lags + q.bs k d

/-- Scalar entry `(t, k, d)` of the array built by
`IndependentAutoRegressiveObservations._compute_mus` (shape `(T, K, D)`):
rows `t < lags` are `self.mu_init * np.ones((lags, K, D))`, the rest come
from the vectorized AR accumulation. -/
def computeMusIndep (q : IndepParams) (data input : Mat) (t k d : ℕ) : ℚ :=
  if t < q.lags then q.mu_init k d
  else q.indepMusAR data input k (t - q.lags) d

end IndepParams

/-- The array returned by `IndependentAutoRegressiveObservations._compute_mus`
as a nested list: `np.concatenate((mu_init * ones((lags, K, D)), mus))`, with
the asserted shape `(T, K, D)` — time on the OUTER axis, unlike the base
class. -/
def computeMusIndepArr (q : IndepParams) (data input : Mat) (T : ℕ) :
    List (List (List ℚ)) :=
  ((List.range q.lags).map fun _ =>
      (List.range q.K).map fun k =>
        (List.range q.D).map fun d => q.mu_init k d)
    ++ ((List.range (T - q.lags)).map fun i =>
      (List.range q.K).map fun k =>
        (List.range q.D).map fun d => q.indepMusAR data input k i d)

/-- Concrete independent-variant parameters used in the C9 theorems:
K=1, D=1, M=1, lags=1. -/
def qW : IndepParams :=
  { K := 1, D := 1, M := 1, lags := 1
    mu_init := fun _ _ => 7
    _As := fun _ _ _ => 1/2
    bs := fun _ _ => 1
    Vs := fun _ _ _ => 3 }

/-- Boolean test `np.all(mask)` for a T×D mask. -/
def allMaskB (mask : ℕ → ℕ → Bool) (T D : ℕ) : Bool :=
  (List.range T).all fun t => (List.range D).all fun d => mask t d

/-- Parameters of `AutoRegressiveObservations` (full-covariance Gaussian AR):
the shared AR parameters plus the square-root parameterizations
`_sqrt_Sigmas_init`, `_sqrt_Sigmas` (K × D × D) and the three L2 penalties. -/
structure ARGaussParams extends ARParams where
  sqrt_Sigmas_init : Ten3
  sqrt_Sigmas : Ten3
  l2_penalty_A : ℚ
  l2_penalty_b : ℚ
  l2_penalty_V : ℚ

namespace ARGaussParams

/-- The `Sigmas_init` property getter:
`np.matmul(self._sqrt_Sigmas_init, np.swapaxes(self._sqrt_Sigmas_init, -1, -2))`. -/
def Sigmas_init (g : ARGaussParams) : Ten3 := fun k i j =>
  ∑ r ∈ Finset.range g.D, g.sqrt_Sigmas_init k i r * g.sqrt_Sigmas_init k j r

/-- The `Sigmas` property getter: `sqrt_Sigmas · sqrt_Sigmasᵀ` per state. -/
def Sigmas (g : ARGaussParams) : Ten3 := fun k i j =>
  ∑ r ∈ Finset.range g.D, g.sqrt_Sigmas k i r * g.sqrt_Sigmas k j r

end ARGaussParams

/-- The T×K matrix built by `AutoRegressiveObservations.log_likelihoods` once
the mask assertion has passed: `np.row_stack((ll_init, ll_ar))` where
`ll_init` evaluates the multivariate normal density of `data[:L]` with the
per-state mean rows and `Sigmas_init`, and `ll_ar` evaluates `data[L:]` with
`Sigmas`.  The external density routine `mvn` receives (data row, mean row,
covariance matrix) exactly as `stats.multivariate_normal_logpdf` does. -/
def llFullArr (g : ARGaussParams)
    (mvn : (ℕ → ℚ) → (ℕ → ℚ) → Mat → ℚ) (data input : Mat) (T : ℕ) :
    List (List ℚ) :=
  ((List.range (min g.lags T)).map fun t =>
      (List.range g.K).map fun k =>
        mvn (fun d => data t d)
          (fun d => g.toARParams.computeMus data input k t d)
          (fun i j => g.Sigmas_init k i j))
    ++ ((List.range (T - g.lags)).map fun i =>
      (List.range g.K).map fun k =>
        mvn (fun d => data (g.lags + i) d)
          (fun d => g.toARParams.computeMus data input k (g.lags + i) d)
          (fun a b => g.Sigmas k a b))

/-- `AutoRegressiveObservations.log_likelihoods`: asserts `np.all(mask)`
(raising the missing-data error otherwise) and returns the stacked T×K
log-likelihood matrix. -/
def log_likelihoods (g : ARGaussParams)
    (mvn : (ℕ → ℚ) → (ℕ → ℚ) → Mat → ℚ) (data input : Mat)
    (mask : ℕ → ℕ → Bool) (T : ℕ) : Except SSMError (List (List ℚ)) :=
  if allMaskB mask T g.D then .ok (llFullArr g mvn data input T)
  else .error .missingData

/-- Parameters of `IndependentAutoRegressiveObservations`: the compressed AR
parameters plus the per-dimension log variances `_log_sigmasq_init` and
`_log_sigmasq` (K × D). -/
structure IndepFullParams extends IndepParams where
  _log_sigmasq_init : Mat
  _log_sigmasq : Mat

/-- `IndependentAutoRegressiveObservations.log_likelihoods`.  Note the
source has NO mask assertion in this override: it computes the stacked
matrix unconditionally.  The external density `dg` receives (data row, mean
row, variance row) as `stats.diagonal_gaussian_logpdf` does; `rexp` is the
external exponential through which `sigmasq = np.exp(_log_sigmasq)` is
derived. -/
def indepLogLikelihoods (q : IndepFullParams) (rexp : ℚ → ℚ)
    (dg : (ℕ → ℚ) → (ℕ → ℚ) → (ℕ → ℚ) → ℚ) (data input : Mat)
    (mask : ℕ → ℕ → Bool) (T : ℕ) : List (List ℚ) :=
  ((List.range (min q.lags T)).map fun t =>
      (List.range q.K).map fun k =>
        dg (fun d => data t d)
          (fun d => q.toIndepParams.computeMusIndep data input t k d)
          (fun d => rexp (q._log_sigmasq_init k d)))
    ++ ((List.range (T - q.lags)).map fun i =>
      (List.range q.K).map fun k =>
        dg (fun d => data (q.lags + i) d)
          (fun d => q.toIndepParams.computeMusIndep data input (q.lags + i) k d)
          (fun d => rexp (q._log_sigmasq k d)))

/-- Concrete full-covariance Gaussian parameters used in witnesses. -/
def gW : ARGaussParams :=
  { toARParams := pW
    sqrt_Sigmas_init := fun _ _ _ => 1
    sqrt_Sigmas := fun _ _ _ => 2
    l2_penalty_A := 1/100000000
    l2_penalty_b := 1/100000000
    l2_penalty_V := 1/100000000 }

/-- Concrete independent-variant parameters used in witnesses. -/
def qFW : IndepFullParams :=
  { toIndepParams := qW
    _log_sigmasq_init := fun _ _ => 0
    _log_sigmasq := fun _ _ => 5 }

/-- Concrete stand-in for the external multivariate normal log-density. -/
def mvnW : (ℕ → ℚ) → (ℕ → ℚ) → Mat → ℚ :=
  fun x mu S => x 0 + mu 0 + S 0 0

/-- Concrete stand-in for the external diagonal Gaussian log-density. -/
def dgW : (ℕ → ℚ) → (ℕ → ℚ) → (ℕ → ℚ) → ℚ :=
  fun x mu s => x 0 * mu 0 + s 0

/-- All-true mask used in witnesses. -/
def maskTrueW : ℕ → ℕ → Bool := fun _ _ => true

/-- One observation sequence together with the responsibilities supplied by
the outer inference engine: length `T`, data (T×D), input (T×M), boolean
mask (T×D) and responsibility weights `Ez` (T×K). -/
structure SeqData where
  T : ℕ
  data : Mat
  input : Mat
  mask : ℕ → ℕ → Bool
  Ez : Mat

/-- Column `c` of the augmented design matrix built in `m_step`:
`np.hstack([data[lags-l-1:-l-1] for l in range(lags)] + [input[lags:, :M], ones])`.
Block `l = c / D` holds `data[lags-l-1+i, c % D]`, the next `M` columns hold
`input[lags+i]`, and the final column is the constant 1. -/
def xrow (D M lags : ℕ) (s : SeqData) (i c : ℕ) : ℚ :=
  if c < D * lags then s.data (lags - c / D - 1 + i) (c % D)
  else if c < D * lags + M then s.input (lags + i) (c - D * lags)
  else 1

/-- Regression target rows: `ys = data[lags:]`. -/
def yrow (lags : ℕ) (s : SeqData) (i d : ℕ) : ℚ := s.data (lags + i) d

/-- Responsibility rows aligned with the regression: `Ezs = e["Ez"][lags:]`. -/
def ezrow (lags : ℕ) (s : SeqData) (i k : ℕ) : ℚ := s.Ez (lags + i) k

namespace ARGaussParams

/-- Diagonal of the ridge prior built from the L2 penalties:
`np.concatenate((l2_penalty_A * ones(D*lags), l2_penalty_V * ones(M),
l2_penalty_b * ones(1)))`. -/
def ridgeJdiag (g : ARGaussParams) (c : ℕ) : ℚ :=
  if c < g.D * g.lags then g.l2_penalty_A
  else if c < g.D * g.lags + g.M then g.l2_penalty_V
  else g.l2_penalty_b

/-- The ridge prior precision `np.tile(np.diag(J_diag)[None], (K, 1, 1))`. -/
def ridgeJ (g : ARGaussParams) : Ten3 := fun _ c c2 =>
  if c = c2 then g.ridgeJdiag c else 0

/-- The conditional prior selection at the top of
`AutoRegressiveObservations.m_step` (source lines 208-218): the ridge prior
when both `J0` and `h0` are absent, otherwise the supplied `J0`, `h0`. -/
def mStepPriorCond (g : ARGaussParams) (J0 h0 : Option Ten3) : Ten3 × Ten3 :=
  match J0, h0 with
  | none, none => (g.ridgeJ, fun _ _ _ => 0)
  | J0, h0 => (J0.getD g.ridgeJ, h0.getD (fun _ _ _ => 0))

/-- The prior actually used by `AutoRegressiveObservations.m_step`: the
source recomputes `J_diag`, `J` and `h` from the ridge penalties a second
time, unconditionally (lines 220-224), immediately after the conditional
above, so the conditional value — including any supplied `J0`, `h0` — is
discarded before the data terms are accumulated. -/
def mStepPrior (g : ARGaussParams) (J0 h0 : Option Ten3) : Ten3 × Ten3 :=
  let _cond := g.mStepPriorCond J0 h0
  (g.ridgeJ, fun _ _ _ => 0)

/-- The accumulated normal-equations matrix
`J[k] += np.dot(weighted_x.T, x)` over all sequences, starting from the
(overwritten) prior. -/
def mStepJ (g : ARGaussParams) (seqs : List SeqData) (J0 h0 : Option Ten3) :
    Ten3 := fun k c c2 =>
  (g.mStepPrior J0 h0).1 k c c2
    + (seqs.map fun s => ∑ i ∈ Finset.range (s.T - g.lags),
        xrow g.D g.M g.lags s i c * ezrow g.lags s i k
          * xrow g.D g.M g.lags s i c2).sum

/-- The accumulated right-hand side `h[k] += np.dot(weighted_x.T, y)`. -/
def mStepH (g : ARGaussParams) (seqs : List SeqData) (J0 h0 : Option Ten3) :
    Ten3 := fun k c d =>
  (g.mStepPrior J0 h0).2 k c d
    + (seqs.map fun s => ∑ i ∈ Finset.range (s.T - g.lags),
        xrow g.D g.M g.lags s i c * ezrow g.lags s i k
          * yrow g.lags s i d).sum

/-- `mus = np.linalg.solve(J, h)` with the external batched solver applied
per state. -/
def mStepMus (g : ARGaussParams) (lsolve : Mat → Mat → Mat)
    (seqs : List SeqData) (J0 h0 : Option Ten3) : ℕ → Mat := fun k =>
  lsolve (fun c c2 => g.mStepJ seqs J0 h0 k c c2)
    (fun c d => g.mStepH seqs J0 h0 k c d)

/-- Total responsibility mass per state over the lag-trimmed rows:
`usage = sum([Ez.sum(0) for Ez in Ezs])`. -/
def mStepUsage (g : ARGaussParams) (seqs : List SeqData) (k : ℕ) : ℚ :=
  (seqs.map fun s => ∑ i ∈ Finset.range (s.T - g.lags), ezrow g.lags s i k).sum

/-- `weight = 1e-8 * np.ones(K)` plus the per-state responsibility sums. -/
def mStepWeight (g : ARGaussParams) (seqs : List SeqData) (k : ℕ) : ℚ :=
  1/100000000 + g.mStepUsage seqs k

/-- Weighted residual outer products
`sqerr += np.einsum('tk,kti,ktj->kij', Ez, resid, resid)` where
`resid = y - x·mus`. -/
def mStepSqerr (g : ARGaussParams) (lsolve : Mat → Mat → Mat)
    (seqs : List SeqData) (J0 h0 : Option Ten3) : Ten3 := fun k a b =>
  (seqs.map fun s => ∑ i ∈ Finset.range (s.T - g.lags),
    ezrow g.lags s i k
      * (yrow g.lags s i a - ∑ c ∈ Finset.range (g.D * g.lags + g.M + 1),
          xrow g.D g.M g.lags s i c * g.mStepMus lsolve seqs J0 h0 k c a)
      * (yrow g.lags s i b - ∑ c ∈ Finset.range (g.D * g.lags + g.M + 1),
          xrow g.D g.M g.lags s i c * g.mStepMus lsolve seqs J0 h0 k c b)).sum

end ARGaussParams

/-- The per-state parameters as they stand between the linear solve and the
final covariance store in `m_step`: `As`, `Vs`, `bs` unstacked from the
solution and the regularized covariance `Sigmas = sqerr/weight + 1e-8·I`. -/
structure FitState where
  As : Ten3
  Vs : Ten3
  bs : Mat
  Sigmas : Ten3

/-- The `FitState` produced by the solve and covariance update of `m_step`
before the unused-state fallback:
`As = swapaxes(mus[:, :D*lags, :])`, `Vs = swapaxes(mus[:, D*lags:D*lags+M, :])`,
`bs = mus[:, -1, :]`, `Sigmas = sqerr / weight + 1e-8 * eye(D)`. -/
def mStepFit (g : ARGaussParams) (lsolve : Mat → Mat → Mat)
    (seqs : List SeqData) (J0 h0 : Option Ten3) : FitState :=
  { As := fun k d c => g.mStepMus lsolve seqs J0 h0 k c d
    Vs := fun k d m => g.mStepMus lsolve seqs J0 h0 k (g.D * g.lags + m) d
    bs := fun k d => g.mStepMus lsolve seqs J0 h0 k (g.D * g.lags + g.M) d
    Sigmas := fun k a b =>
      g.mStepSqerr lsolve seqs J0 h0 k a b / g.mStepWeight seqs k
        + (if a = b then 1/100000000 else 0) }

/-- States whose responsibility mass is below 1: `np.where(usage < 1)[0]`. -/
def mStepUnused (g : ARGaussParams) (seqs : List SeqData) : List ℕ :=
  (List.range g.K).filter fun k => g.mStepUsage seqs k < 1

/-- States whose responsibility mass exceeds 1: `np.where(usage > 1)[0]`. -/
def mStepUsed (g : ARGaussParams) (seqs : List SeqData) : List ℕ :=
  (List.range g.K).filter fun k => 1 < g.mStepUsage seqs k

/-- One iteration of the unused-state fallback loop: pick a used state
`i = npr.choice(used)` (the random draw is modelled by the oracle `pickIdx`,
reduced modulo the list length so the pick is always a member), then set
`As[k] = As[i] + 0.01*randn`, `Vs[k] = Vs[i] + 0.01*randn`,
`bs[k] = bs[i] + 0.01*randn` and `Sigmas[k] = Sigmas[i]` (the noise draws
are the oracles `noiseA`, `noiseV`, `noiseB`). -/
def fallbackStep (pickIdx : ℕ → ℕ) (noiseA noiseV : Ten3) (noiseB : Mat)
    (usedL : List ℕ) (st : FitState) (k : ℕ) : FitState :=
  let i := usedL.getD (pickIdx k % usedL.length) 0
  { As := fun k2 => if k2 = k
      then fun d c => st.As i d c + 1/100 * noiseA k d c else st.As k2
    Vs := fun k2 => if k2 = k
      then fun d m => st.Vs i d m + 1/100 * noiseV k d m else st.Vs k2
    bs := fun k2 => if k2 = k
      then fun d => st.bs i d + 1/100 * noiseB k d else st.bs k2
    Sigmas := fun k2 => if k2 = k then st.Sigmas i else st.Sigmas k2 }

/-- Writing a `FitState` back into the model: `self.As`, `self.Vs`,
`self.bs` are plain assignments and `self.Sigmas = Sigmas` goes through the
setter, which stores `np.linalg.cholesky(Sigmas)` (the external
factorization is the parameter `cholQ`, applied per state). -/
def storeFit (g : ARGaussParams) (cholQ : Mat → Mat) (st : FitState) :
    ARGaussParams :=
  { g with As := st.As, Vs := st.Vs, bs := st.bs
           sqrt_Sigmas := fun k a b => cholQ (fun i j => st.Sigmas k i j) a b }

/-- `AutoRegressiveObservations.m_step`.  The mask completeness check runs
first, in the data-collection loop, before any parameter is touched; the
per-state regressions are solved; and unused states (mass < 1) are replaced
by perturbed copies of a randomly chosen used state (mass > 1) —
`npr.choice` on an empty used-list is a `ValueError`. -/
def m_step (g : ARGaussParams) (lsolve : Mat → Mat → Mat) (cholQ : Mat → Mat)
    (pickIdx : ℕ → ℕ) (noiseA noiseV : Ten3) (noiseB : Mat)
    (seqs : List SeqData) (J0 h0 : Option Ten3) :
    Except SSMError ARGaussParams :=
  if (seqs.all fun s => allMaskB s.mask s.T g.D) then
    let st0 := mStepFit g lsolve seqs J0 h0
    let unusedL := mStepUnused g seqs
    let usedL := mStepUsed g seqs
    if unusedL.isEmpty then .ok (storeFit g cholQ st0)
    else if usedL.isEmpty then .error .valueError
    else .ok (storeFit g cholQ
      (unusedL.foldl (fallbackStep pickIdx noiseA noiseV noiseB usedL) st0))
  else .error .missingData

/-- Concrete two-state Gaussian AR parameters for the C6 witness. -/
def g6 : ARGaussParams :=
  { K := 2, D := 1, M := 1, lags := 1
    mu_init := fun _ _ => 0
    As := fun _ _ _ => 1/2
    bs := fun _ _ => 0
    Vs := fun _ _ _ => 0
    sqrt_Sigmas_init := fun _ _ _ => 1
    sqrt_Sigmas := fun _ _ _ => 1
    l2_penalty_A := 1/100000000
    l2_penalty_b := 1/100000000
    l2_penalty_V := 1/100000000 }

/-- Concrete sequence for the C6 witness: state 0 carries all the
responsibility mass, state 1 none. -/
def seq6 : SeqData :=
  { T := 3, data := dataW, input := inputW, mask := maskTrueW
    Ez := fun _ k => if k = 0 then 1 else 0 }

/-- Dummy per-state linear solver used in witnesses (any function works:
the solver is an external library parameter). -/
def lsolveW : Mat → Mat → Mat := fun _ h => h

/-- Dummy Cholesky factorization used in witnesses. -/
def cholW : Mat → Mat := fun S => S

/-- Four-dimensional array of rationals. -/
abbrev Ten4 : Type := ℕ → ℕ → ℕ → ℕ → ℚ

/-- Parameters of the robust (multivariate Student's-t) AR variants:
the Gaussian parameterization plus per-state log degrees of freedom. -/
structure RobustParams extends ARGaussParams where
  _log_nus : ℕ → ℚ

namespace RobustParams

/-- The `nus` property getter `np.exp(self._log_nus)`; the exponential is
the external parameter `rexp`. -/
def nus (r : RobustParams) (rexp : ℚ → ℚ) (k : ℕ) : ℚ := rexp (r._log_nus k)

end RobustParams

/-- `Afull = np.concatenate((self.As, self.Vs, self.bs[:, :, None]), axis=2)`
in the robust E-step. -/
def robustAfull (g : ARGaussParams) : Ten3 := fun k d c =>
  if c < g.D * g.lags then g.As k d c
  else if c < g.D * g.lags + g.M then g.Vs k d (c - g.D * g.lags)
  else g.bs k d

/-- `mus = np.matmul(Afull[None, :, :, :], x[:, None, :, None])[:, :, :, 0]`:
the predicted mean of regression row `i` under state `k`, computed from the
current parameters. -/
def robustMusPred (g : ARGaussParams) (s : SeqData) (i k d : ℕ) : ℚ :=
  ∑ c ∈ Finset.range (g.D * g.lags + g.M + 1),
    robustAfull g k d c * xrow g.D g.M g.lags s i c

/-- The E-step posterior mean of `tau` in
`_RobustAutoRegressiveObservationsMixin._m_step_ar`:
`alpha = self.nus / 2 + D/2`,
`beta = self.nus / 2 + 1/2 * stats.batch_mahalanobis(np.linalg.cholesky(self.Sigmas), y - mus)`,
`tau = alpha / beta`, all read from the CURRENT parameters `r`.  The
external routines are the parameters `cholQ` (batched Cholesky) and
`bmahal` (batched squared Mahalanobis distance given a Cholesky factor). -/
def robustTau (r : RobustParams) (rexp : ℚ → ℚ) (cholQ : Mat → Mat)
    (bmahal : Mat → (ℕ → ℚ) → ℚ) (s : SeqData) (i k : ℕ) : ℚ :=
  (r.nus rexp k / 2 + (r.D : ℚ) / 2)
    / (r.nus rexp k / 2
        + 1/2 * bmahal (cholQ fun a b => r.Sigmas k a b)
            (fun d => yrow r.lags s i d - robustMusPred r.toARGaussParams s i k d))

/-- The accumulated normal-equations matrix of one robust inner iteration:
as in the Gaussian M-step but with `weight = Ez * tau`, and starting from
the prior selected by the conditional (the robust `_m_step_ar` has no
second, unconditional reassignment).  In the Python source `J = J0` aliases
the caller's array, so with `num_em_iters > 1` the data terms accumulate
into `J0` across iterations; this embedding models the value computed in a
single iteration from the stated prior, which coincides with the source for
the default `num_em_iters=1`. -/
def robustJ (r : RobustParams) (rexp : ℚ → ℚ) (cholQ : Mat → Mat)
    (bmahal : Mat → (ℕ → ℚ) → ℚ) (seqs : List SeqData)
    (J0 h0 : Option Ten3) : Ten3 := fun k c c2 =>
  (r.mStepPriorCond J0 h0).1 k c c2
    + (seqs.map fun s => ∑ i ∈ Finset.range (s.T - r.lags),
        xrow r.D r.M r.lags s i c
          * (ezrow r.lags s i k * robustTau r rexp cholQ bmahal s i k)
          * xrow r.D r.M r.lags s i c2).sum

/-- The accumulated right-hand side of one robust inner iteration. -/
def robustH (r : RobustParams) (rexp : ℚ → ℚ) (cholQ : Mat → Mat)
    (bmahal : Mat → (ℕ → ℚ) → ℚ) (seqs : List SeqData)
    (J0 h0 : Option Ten3) : Ten3 := fun k c d =>
  (r.mStepPriorCond J0 h0).2 k c d
    + (seqs.map fun s => ∑ i ∈ Finset.range (s.T - r.lags),
        xrow r.D r.M r.lags s i c
          * (ezrow r.lags s i k * robustTau r rexp cholQ bmahal s i k)
          * yrow r.lags s i d).sum

/-- One iteration of the inner EM loop of
`_RobustAutoRegressiveObservationsMixin._m_step_ar`: E-step `taus` from the
current parameters, weighted solve for `As`/`Vs`/`bs`, and covariance update
`self.Sigmas = sqerr / weight + 1e-8 * eye(D)` where
`sqerr = Σ Ez·tau·resid·residᵀ` and `weight = Σ Ez` (initialized at zero —
unlike the Gaussian `m_step` there is no `1e-8` floor on the weight and no
unused-state fallback). -/
def robustMStepIter (rexp : ℚ → ℚ) (cholQ : Mat → Mat)
    (bmahal : Mat → (ℕ → ℚ) → ℚ) (lsolve : Mat → Mat → Mat)
    (seqs : List SeqData) (J0 h0 : Option Ten3) (r : RobustParams) :
    RobustParams :=
  let P := r.D * r.lags + r.M + 1
  let mus := fun k => lsolve (fun c c2 => robustJ r rexp cholQ bmahal seqs J0 h0 k c c2)
    (fun c d => robustH r rexp cholQ bmahal seqs J0 h0 k c d)
  let weight := fun k => (seqs.map fun s =>
    ∑ i ∈ Finset.range (s.T - r.lags), ezrow r.lags s i k).sum
  let sqerr := fun k a b => (seqs.map fun s =>
    ∑ i ∈ Finset.range (s.T - r.lags),
      ezrow r.lags s i k * robustTau r rexp cholQ bmahal s i k
        * (yrow r.lags s i a - ∑ c ∈ Finset.range P, xrow r.D r.M r.lags s i c * mus k c a)
        * (yrow r.lags s i b - ∑ c ∈ Finset.range P, xrow r.D r.M r.lags s i c * mus k c b)).sum
  { r with As := fun k d c => mus k c d
           Vs := fun k d m => mus k (r.D * r.lags + m) d
           bs := fun k d => mus k (r.D * r.lags + r.M) d
           sqrt_Sigmas := fun k a b => cholQ (fun a2 b2 =>
             sqerr k a2 b2 / weight k + (if a2 = b2 then 1/100000000 else 0)) a b }

/-- The inner EM loop `for itr in range(num_em_iters)` of the robust
`_m_step_ar`: the iteration body applied `n` times in sequence. -/
def robustMStepAR (rexp : ℚ → ℚ) (cholQ : Mat → Mat)
    (bmahal : Mat → (ℕ → ℚ) → ℚ) (lsolve : Mat → Mat → Mat)
    (seqs : List SeqData) (J0 h0 : Option Ten3) :
    ℕ → RobustParams → RobustParams
  | 0, r => r
  | n + 1, r => robustMStepAR rexp cholQ bmahal lsolve seqs J0 h0 n
      (robustMStepIter rexp cholQ bmahal lsolve seqs J0 h0 r)

/-- `_RobustAutoRegressiveObservationsMixin._m_step_ar`: the mask
completeness check in the data-collection loop (raising the missing-data
error), then the inner EM loop. -/
def robust_m_step_ar (rexp : ℚ → ℚ) (cholQ : Mat → Mat)
    (bmahal : Mat → (ℕ → ℚ) → ℚ) (lsolve : Mat → Mat → Mat)
    (seqs : List SeqData) (num_em_iters : ℕ) (J0 h0 : Option Ten3)
    (r : RobustParams) : Except SSMError RobustParams :=
  if (seqs.all fun s => allMaskB s.mask s.T r.D) then
    .ok (robustMStepAR rexp cholQ bmahal lsolve seqs J0 h0 num_em_iters r)
  else .error .missingData

/-- Parameters of `AutoRegressiveDiagonalNoiseObservations`: the shared AR
parameters, the L2 penalties inherited from the Gaussian class, and the
per-dimension log variances replacing the square-root covariance factors. -/
structure ARDiagParams extends ARParams where
  _log_sigmasq_init : Mat
  _log_sigmasq : Mat
  l2_penalty_A : ℚ
  l2_penalty_b : ℚ
  l2_penalty_V : ℚ

/-- Parameters of `AltRobustAutoRegressiveDiagonalNoiseObservations`: the
diagonal-noise parameters plus per-state-per-dimension log degrees of
freedom. -/
structure AltParams extends ARDiagParams where
  _log_nus : Mat

namespace AltParams

/-- The `nus` property getter `np.exp(self._log_nus)` (K × D). -/
def nus (a : AltParams) (rexp : ℚ → ℚ) (k d : ℕ) : ℚ := rexp (a._log_nus k d)

/-- The `sigmasq` property getter `np.exp(self._log_sigmasq)` (K × D). -/
def sigmasq (a : AltParams) (rexp : ℚ → ℚ) (k d : ℕ) : ℚ :=
  rexp (a._log_sigmasq k d)

/-- `Afull`-based mean prediction in the Alt-robust E-step, identical in
form to the multivariate robust one (the diagonal-noise class stores dense
`As`). -/
def musPred (a : AltParams) (s : SeqData) (i k d : ℕ) : ℚ :=
  ∑ c ∈ Finset.range (a.D * a.lags + a.M + 1),
    (if c < a.D * a.lags then a.As k d c
     else if c < a.D * a.lags + a.M then a.Vs k d (c - a.D * a.lags)
     else a.bs k d) * xrow a.D a.M a.lags s i c

/-- The E-step posterior mean of `tau` in
`AltRobustAutoRegressiveDiagonalNoiseObservations._m_step_ar`:
`alpha = self.nus / 2 + 1/2`,
`beta = self.nus / 2 + 1/2 * (y - mus)**2 / self.sigmasq`,
`taus = alpha / beta`, per time step, state AND dimension, from the CURRENT
parameters `a`. -/
def tau (a : AltParams) (rexp : ℚ → ℚ) (s : SeqData) (i k d : ℕ) : ℚ :=
  (a.nus rexp k d / 2 + 1/2)
    / (a.nus rexp k d / 2
        + 1/2 * (yrow a.lags s i d - a.musPred s i k d)^2 / a.sigmasq rexp k d)

end AltParams

/-- One iteration of the inner EM loop of the Alt-robust `_m_step_ar`:
E-step `taus` from the current parameters; M-step accumulating
`J = np.tile(np.eye(D*lags+M+1))`, `h = 0` through the external
`robust_ar_statistics(Ez, tau, x, y, J, h)` routine (the parameter
`rstats`), per-(state, dimension) solve (the external `lsolve1`), and
variance update `log(sqerr / weight + 1e-16)` with
`sqerr = Σ Ez·tau·(y − x·mus)²` and `weight = Σ Ez`. -/
def altMStepIter (rexp rlog : ℚ → ℚ)
    (rstats : Mat → Ten3 → Mat → Mat → Ten4 → Ten3 → Ten4 × Ten3)
    (lsolve1 : Mat → (ℕ → ℚ) → ℕ → ℚ) (seqs : List SeqData)
    (a : AltParams) : AltParams :=
  let P := a.D * a.lags + a.M + 1
  let Jh := seqs.foldl (fun Jh s =>
    rstats (fun i k => ezrow a.lags s i k)
      (fun i k d => a.tau rexp s i k d)
      (fun i c => xrow a.D a.M a.lags s i c)
      (fun i d => yrow a.lags s i d) Jh.1 Jh.2)
    (fun _ _ c c2 => if c = c2 then 1 else 0, fun _ _ _ => 0)
  let mus := fun k d => lsolve1 (fun c c2 => Jh.1 k d c c2) (fun c => Jh.2 k d c)
  let weight := fun k => (seqs.map fun s =>
    ∑ i ∈ Finset.range (s.T - a.lags), ezrow a.lags s i k).sum
  let sqerr := fun k d => (seqs.map fun s =>
    ∑ i ∈ Finset.range (s.T - a.lags),
      ezrow a.lags s i k * a.tau rexp s i k d
        * (yrow a.lags s i d - ∑ c ∈ Finset.range P,
            xrow a.D a.M a.lags s i c * mus k d c)^2).sum
  { a with As := fun k d c => mus k d c
           Vs := fun k d m => mus k d (a.D * a.lags + m)
           bs := fun k d => mus k d (a.D * a.lags + a.M)
           _log_sigmasq := fun k d =>
             rlog (sqerr k d / weight k + 1/10000000000000000) }

/-- The inner EM loop `for itr in range(num_em_iters)` of the Alt-robust
`_m_step_ar`. -/
def altMStepAR (rexp rlog : ℚ → ℚ)
    (rstats : Mat → Ten3 → Mat → Mat → Ten4 → Ten3 → Ten4 × Ten3)
    (lsolve1 : Mat → (ℕ → ℚ) → ℕ → ℚ) (seqs : List SeqData) :
    ℕ → AltParams → AltParams
  | 0, a => a
  | n + 1, a => altMStepAR rexp rlog rstats lsolve1 seqs n
      (altMStepIter rexp rlog rstats lsolve1 seqs a)

/-- The E-step formula as the specification words it for the multivariate
robust variants: `alpha = ν/2 + D/2`, `beta = ν/2 + (1/2)·m` where `m` is
the squared Mahalanobis distance, `E[tau] = alpha/beta`. -/
def specTauFull (nu : ℚ) (D : ℕ) (mahalSq : ℚ) : ℚ :=
  (nu / 2 + (D : ℚ) / 2) / (nu / 2 + 1/2 * mahalSq)

/-- The E-step formula as the specification words it for the independent-t
variant: `alpha = ν/2 + 1/2`, `beta = ν/2 + (1/2)·(squared residual / variance)`. -/
def specTauIndep (nu residsq sigsq : ℚ) : ℚ :=
  (nu / 2 + 1/2) / (nu / 2 + 1/2 * residsq / sigsq)

/-- Concrete stand-in for the external batched squared-Mahalanobis routine. -/
def mahW : Mat → (ℕ → ℚ) → ℚ := fun S v => S 0 0 + v 0

/-- Concrete stand-in for the external `robust_ar_statistics` accumulator. -/
def rstatsW : Mat → Ten3 → Mat → Mat → Ten4 → Ten3 → Ten4 × Ten3 :=
  fun _ _ _ _ J h => (J, h)

/-- Concrete stand-in for the external per-(state,dimension) linear solver. -/
def lsolve1W : Mat → (ℕ → ℚ) → ℕ → ℚ := fun _ h => h

/-- Concrete robust-variant parameters for the C6 counterexample:
the two-state Gaussian parameters `g6` with `log_nus = 2`. -/
def r6 : RobustParams :=
  { toARGaussParams := g6, _log_nus := fun _ => 2 }

/-- One row of the per-dimension regression data assembled by
`IndependentAutoRegressiveObservations.m_step`: the design row `x` (length
`lags + M + 1`), the scalar target `y = data[lags+i, d]` and the
responsibility row `w = Ez[lags+i]`. -/
structure RegRow where
  x : ℕ → ℚ
  y : ℚ
  w : ℕ → ℚ

/-- Column `c` of the per-dimension design matrix:
`np.hstack([data[lags-l-1:-l-1, d:d+1] for l in range(lags)] + [input[lags:, :M], ones])`. -/
def indepXrow (lags M : ℕ) (s : SeqData) (d i c : ℕ) : ℚ :=
  if c < lags then s.data (lags - c - 1 + i) d
  else if c < lags + M then s.input (lags + i) (c - lags)
  else 1

/-- The concatenated regression rows for dimension `d` over the sequences
whose mask column `d` is complete. -/
def indepRows (lags M : ℕ) (d : ℕ) (passing : List SeqData) : List RegRow :=
  passing.flatMap fun s => (List.range (s.T - lags)).map fun i =>
    { x := fun c => indepXrow lags M s d i c
      y := s.data (lags + i) d
      w := fun k => s.Ez (lags + i) k }

/-- The body of the per-state loop in
`IndependentAutoRegressiveObservations.m_step` for one `(k, d)` pair.
IMPORTANT modelling note, faithful to the source: `self.As` on this class is
a PROPERTY whose getter builds a fresh dense array from the stored `_As`;
item assignments like `self.As[k, d] = 1.0` and `self.As[k, d] = muk[:lags]`
mutate only that fresh copy, so the stored `_As` is never changed here.
`self.Vs`, `self.bs` and `self._log_sigmasq` are plain stored arrays and are
updated.  The variance update reads the concatenation
`np.concatenate((self.As[k, d], self.Vs[k, d], [self.bs[k, d]]))` — the `As`
getter row of length `D*lags` (holding the OLD coefficients), which matches
the design width `lags + M + 1` only when `D*lags = lags`; otherwise numpy
raises a shape `ValueError`. -/
def indepKStep (lsolve1 : Mat → (ℕ → ℚ) → ℕ → ℚ) (rlog : ℚ → ℚ) (d : ℕ)
    (rows : List RegRow) (q : IndepFullParams) (k : ℕ) :
    Except SSMError IndepFullParams :=
  if (rows.map fun row => row.w k).sum < ((q.lags + q.M + 1 : ℕ) : ℚ) then
    .ok { q with
      Vs := fun k2 d2 m => if k2 = k ∧ d2 = d then 0 else q.Vs k2 d2 m
      bs := fun k2 d2 => if k2 = k ∧ d2 = d then 0 else q.bs k2 d2
      _log_sigmasq := fun k2 d2 =>
        if k2 = k ∧ d2 = d then 0 else q._log_sigmasq k2 d2 }
  else
    let Jk : Mat := fun c c2 => (rows.map fun row => row.w k * row.x c * row.x c2).sum
    let hk : ℕ → ℚ := fun c => (rows.map fun row => row.w k * row.x c * row.y).sum
    let muk := lsolve1 Jk hk
    let q2 : IndepFullParams :=
      { q with
        Vs := fun k2 d2 m =>
          if k2 = k ∧ d2 = d then muk (q.lags + m) else q.Vs k2 d2 m
        bs := fun k2 d2 =>
          if k2 = k ∧ d2 = d then muk (q.lags + q.M) else q.bs k2 d2 }
    if q.D * q.lags ≠ q.lags then .error .valueError
    else
      let coef : ℕ → ℚ := fun c =>
        if c < q.D * q.lags then q2.AsFull k d c
        else if c < q.D * q.lags + q.M then q2.Vs k d (c - q.D * q.lags)
        else q2.bs k d
      let sigma := (rows.map fun row => row.w k
          * (row.y - ∑ c ∈ Finset.range (q.lags + q.M + 1), row.x c * coef c)^2).sum
        / (rows.map fun row => row.w k).sum + 1/10000000000000000
      .ok { q2 with _log_sigmasq := fun k2 d2 =>
        if k2 = k ∧ d2 = d then rlog sigma else q2._log_sigmasq k2 d2 }

/-- The body of the per-dimension loop of
`IndependentAutoRegressiveObservations.m_step`: collect the sequences whose
mask column `d` is complete (`np.concatenate` on an empty list raises
`ValueError`); if there are no rows, zero out `Vs[:, d]` and `bs[:, d]`
(the `self.As[:, d, :] = 0` write is again lost in the property copy) and
skip; otherwise run the per-state regressions. -/
def indepDStep (lsolve1 : Mat → (ℕ → ℚ) → ℕ → ℚ) (rlog : ℚ → ℚ)
    (seqs : List SeqData) (q : IndepFullParams) (d : ℕ) :
    Except SSMError IndepFullParams :=
  let passing := seqs.filter fun s => (List.range s.T).all fun t => s.mask t d
  if passing.isEmpty then .error .valueError
  else
    let rows := indepRows q.lags q.M d passing
    if rows.isEmpty then
      .ok { q with
        Vs := fun k2 d2 m => if d2 = d then 0 else q.Vs k2 d2 m
        bs := fun k2 d2 => if d2 = d then 0 else q.bs k2 d2 }
    else (List.range q.K).foldlM (indepKStep lsolve1 rlog d rows) q

/-- `IndependentAutoRegressiveObservations.m_step`: the per-dimension loop.
There is no completeness assertion — incomplete dimensions are filtered,
never raised on. -/
def mStepIndep (lsolve1 : Mat → (ℕ → ℚ) → ℕ → ℚ) (rlog : ℚ → ℚ)
    (seqs : List SeqData) (q : IndepFullParams) :
    Except SSMError IndepFullParams :=
  (List.range q.D).foldlM (indepDStep lsolve1 rlog seqs) q

/-- Concrete independent-variant parameters for C7: K=1, D=1, M=0, lags=1,
stored lag coefficient `_As = 19/20` (the `0.95` constructor default),
bias 5 and log variance 3. -/
def q7 : IndepFullParams :=
  { K := 1, D := 1, M := 0, lags := 1
    mu_init := fun _ _ => 0
    _As := fun _ _ _ => 19/20
    bs := fun _ _ => 5
    Vs := fun _ _ _ => 0
    _log_sigmasq_init := fun _ _ => 0
    _log_sigmasq := fun _ _ => 3 }

/-- Sequence with zero responsibility everywhere: every (state, dimension)
pair has mass `0 < lags + M + 1`, so `m_step` takes the identity/zero
fallback branch for the single pair (0,0). -/
def seq7 : SeqData :=
  { T := 3, data := dataW, input := inputW, mask := maskTrueW
    Ez := fun _ _ => 0 }

/-- Mask with a false entry at `t = 0` (every `d`). -/
def maskBadW : ℕ → ℕ → Bool := fun t _ => decide (0 < t)

/-- Sequence carrying the incomplete mask `maskBadW`. -/
def seqBadW : SeqData :=
  { T := 3, data := dataW, input := inputW, mask := maskBadW
    Ez := fun _ _ => 1 }

/-- `_AutoRegressiveObservationsBase.permute`: reindex `mu_init`, `As`,
`bs`, `Vs` by `perm` (`arr = arr[perm]`, i.e. new entry `k` is old entry
`perm k`). -/
def ARParams.permute (p : ARParams) (perm : ℕ → ℕ) : ARParams :=
  { p with mu_init := fun k => p.mu_init (perm k)
           As := fun k => p.As (perm k)
           bs := fun k => p.bs (perm k)
           Vs := fun k => p.Vs (perm k) }

/-- `AutoRegressiveObservations.permute`: the base permute plus
`self._sqrt_Sigmas = self._sqrt_Sigmas[perm]` (note the source does not
permute `_sqrt_Sigmas_init`). -/
def ARGaussParams.permute (g : ARGaussParams) (perm : ℕ → ℕ) : ARGaussParams :=
  { g with toARParams := g.toARParams.permute perm
           sqrt_Sigmas := fun k => g.sqrt_Sigmas (perm k) }

/-- `AutoRegressiveDiagonalNoiseObservations.permute`: the base permute
(skipping the Gaussian class's, whose `_sqrt_Sigmas` was deleted) plus both
log-variance arrays. -/
def ARDiagParams.permute (p : ARDiagParams) (perm : ℕ → ℕ) : ARDiagParams :=
  { p with toARParams := p.toARParams.permute perm
           _log_sigmasq_init := fun k => p._log_sigmasq_init (perm k)
           _log_sigmasq := fun k => p._log_sigmasq (perm k) }

/-- `_RobustAutoRegressiveObservationsMixin.permute`: the Gaussian permute
plus `self._log_nus = self._log_nus[perm]`. -/
def RobustParams.permute (r : RobustParams) (perm : ℕ → ℕ) : RobustParams :=
  { r with toARGaussParams := r.toARGaussParams.permute perm
           _log_nus := fun k => r._log_nus (perm k) }

/-- `IndependentAutoRegressiveObservations.permute`: reindexes `mu_init`,
`_As`, `bs`, `Vs` and both log-variance arrays. -/
def IndepFullParams.permute (q : IndepFullParams) (perm : ℕ → ℕ) :
    IndepFullParams :=
  { q with mu_init := fun k => q.mu_init (perm k)
           _As := fun k => q._As (perm k)
           bs := fun k => q.bs (perm k)
           Vs := fun k => q.Vs (perm k)
           _log_sigmasq_init := fun k => q._log_sigmasq_init (perm k)
           _log_sigmasq := fun k => q._log_sigmasq (perm k) }

/-- `AltRobustAutoRegressiveDiagonalNoiseObservations.permute`: after the
`super().permute(perm)` call completes its in-place writes, the line
`self.inv_nus = self.inv_nus[perm]` reads the attribute `inv_nus`, which
this class never defines (it stores `_log_nus`), so every call raises
`AttributeError` — and `_log_nus` is never permuted. -/
def AltParams.permute (a : AltParams) (perm : ℕ → ℕ) :
    Except SSMError AltParams :=
  let _partial := a.toARDiagParams.permute perm
  .error .attributeError

/-- Concrete diagonal-noise parameters for the C8 witness. -/
def dpW : ARDiagParams :=
  { toARParams := pW
    _log_sigmasq_init := fun _ _ => 0
    _log_sigmasq := fun _ _ => 1
    l2_penalty_A := 1/100000000
    l2_penalty_b := 1/100000000
    l2_penalty_V := 1/100000000 }

/-- Concrete Alt-robust parameters for the C8 witness. -/
def aW : AltParams :=
  { toARDiagParams := dpW, _log_nus := fun _ _ => 2 }

/-- Swap of states 0 and 1, its own inverse. -/
def swapW : ℕ → ℕ := fun k => if k = 0 then 1 else if k = 1 then 0 else k

/-- Shape test `value.shape == (K, D)` for a nested-list matrix. -/
def shape2Ok (v : List (List ℚ)) (K D : ℕ) : Bool :=
  v.length == K && v.all fun r => r.length == D

/-- Shape test `value.shape == (K, D, D)` for a nested-list rank-3 array. -/
def shape3Ok (v : List (List (List ℚ))) (K D : ℕ) : Bool :=
  v.length == K && v.all fun S => S.length == D && S.all fun row => row.length == D

/-- `np.diag(S)` for a square nested-list matrix. -/
def diagOf (S : List (List ℚ)) : List ℚ :=
  (List.range S.length).map fun i => (S.getD i []).getD i 0

/-- `np.all(value > 0)` for a nested-list matrix. -/
def allPos2 (v : List (List ℚ)) : Bool :=
  v.all fun r => r.all fun x => decide (0 < x)

/-- The `sigmasq` (and, identically, `sigmasq_init`) setter of the
diagonal-noise classes: assert the (K, D) shape, assert strict positivity,
store `np.log(value)` (the logarithm is the external parameter `rlog`).
A failed assertion raises before the store, so the previously stored
parameters are untouched. -/
def sigmasq_setter (K D : ℕ) (rlog : ℚ → ℚ) (value : List (List ℚ)) :
    Except SSMError (List (List ℚ)) :=
  if ¬ shape2Ok value K D then .error .assertionError
  else if ¬ allPos2 value then .error .assertionError
  else .ok (value.map fun r => r.map rlog)

/-- The `Sigmas` setter of `AutoRegressiveDiagonalNoiseObservations`:
assert the (K, D, D) shape, extract `np.diag(S)` per state, assert the
DIAGONALS are positive (the off-diagonal entries are never examined), and
store the log diagonals. -/
def Sigmas_setter_diag (K D : ℕ) (rlog : ℚ → ℚ)
    (value : List (List (List ℚ))) : Except SSMError (List (List ℚ)) :=
  if ¬ shape3Ok value K D then .error .assertionError
  else
    let sigmasq := value.map diagOf
    if ¬ allPos2 sigmasq then .error .assertionError
    else .ok (sigmasq.map fun r => r.map rlog)

/-- The `Sigmas` setter of `AutoRegressiveObservations`: assert the
(K, D, D) shape and store `np.linalg.cholesky(value)` — the external
factorization `cholM` applied per state, whose failure (`LinAlgError` on a
non-positive-definite lower triangle) propagates before anything is
stored. -/
def Sigmas_setter_full (K D : ℕ)
    (cholM : List (List ℚ) → Except SSMError (List (List ℚ)))
    (value : List (List (List ℚ))) :
    Except SSMError (List (List (List ℚ))) :=
  if ¬ shape3Ok value K D then .error .assertionError
  else value.mapM cholM

/-- The `sigmasq` getter `np.exp(self._log_sigmasq)`. -/
def sigmasq_getter (rexp : ℚ → ℚ) (st : List (List ℚ)) : List (List ℚ) :=
  st.map fun r => r.map rexp

/-- Quadratic form `vᵀ A v` of a nested-list matrix, witnessing
(non-)positive-definiteness. -/
def quadForm (A : List (List ℚ)) (v : List ℚ) : ℚ :=
  ∑ i ∈ Finset.range v.length, ∑ j ∈ Finset.range v.length,
    v.getD i 0 * get2 A i j * v.getD j 0

/-- The T×K matrix built by the robust mixin's `log_likelihoods`
(`_RobustAutoRegressiveObservationsMixin`, combined with the
full-covariance Gaussian base) once the mask assertion has passed: the
first `lags` rows evaluate the multivariate normal density with
`Sigmas_init`, the remaining rows the multivariate Student's-t density
(`mvt`, receiving data row, mean row, covariance and degrees of freedom)
with `Sigmas` and the state's current `nus`. -/
def robustLLArr (r : RobustParams) (rexp : ℚ → ℚ)
    (mvn : (ℕ → ℚ) → (ℕ → ℚ) → Mat → ℚ)
    (mvt : (ℕ → ℚ) → (ℕ → ℚ) → Mat → ℚ → ℚ) (data input : Mat) (T : ℕ) :
    List (List ℚ) :=
  ((List.range (min r.lags T)).map fun t =>
      (List.range r.K).map fun k =>
        mvn (fun d => data t d)
          (fun d => r.toARParams.computeMus data input k t d)
          (fun i j => r.Sigmas_init k i j))
    ++ ((List.range (T - r.lags)).map fun i =>
      (List.range r.K).map fun k =>
        mvt (fun d => data (r.lags + i) d)
          (fun d => r.toARParams.computeMus data input k (r.lags + i) d)
          (fun x y => r.Sigmas k x y) (r.nus rexp k))

/-- `_RobustAutoRegressiveObservationsMixin.log_likelihoods`: asserts
`np.all(mask)` (raising the missing-data error before anything else)
and returns the stacked T×K matrix. -/
def robust_log_likelihoods (r : RobustParams) (rexp : ℚ → ℚ)
    (mvn : (ℕ → ℚ) → (ℕ → ℚ) → Mat → ℚ)
    (mvt : (ℕ → ℚ) → (ℕ → ℚ) → Mat → ℚ → ℚ) (data input : Mat)
    (mask : ℕ → ℕ → Bool) (T : ℕ) : Except SSMError (List (List ℚ)) :=
  if allMaskB mask T r.D then .ok (robustLLArr r rexp mvn mvt data input T)
  else .error .missingData

/-- The T×K matrix built by
`AltRobustAutoRegressiveDiagonalNoiseObservations.log_likelihoods` once the
mask assertion has passed: `mus` is the axes-swapped base `_compute_mus`;
the first `lags` rows evaluate the diagonal Gaussian density (`dg`) with
`sigmasq_init`, the remaining rows the independent Student's-t density
(`ist`, receiving data row, mean row, variance row and degrees-of-freedom
row) with `sigmasq` and `nus`. -/
def altLLArr (a : AltParams) (rexp : ℚ → ℚ)
    (dg : (ℕ → ℚ) → (ℕ → ℚ) → (ℕ → ℚ) → ℚ)
    (ist : (ℕ → ℚ) → (ℕ → ℚ) → (ℕ → ℚ) → (ℕ → ℚ) → ℚ)
    (data input : Mat) (T : ℕ) : List (List ℚ) :=
  ((List.range (min a.lags T)).map fun t =>
      (List.range a.K).map fun k =>
        dg (fun d => data t d)
          (fun d => a.toARParams.computeMus data input k t d)
          (fun d => rexp (a._log_sigmasq_init k d)))
    ++ ((List.range (T - a.lags)).map fun i =>
      (List.range a.K).map fun k =>
        ist (fun d => data (a.lags + i) d)
          (fun d => a.toARParams.computeMus data input k (a.lags + i) d)
          (fun d => a.sigmasq rexp k d) (fun d => a.nus rexp k d))

/-- `AltRobustAutoRegressiveDiagonalNoiseObservations.log_likelihoods`:
asserts `np.all(mask)` (raising the missing-data error before anything
else) and returns the stacked T×K matrix. -/
def alt_log_likelihoods (a : AltParams) (rexp : ℚ → ℚ)
    (dg : (ℕ → ℚ) → (ℕ → ℚ) → (ℕ → ℚ) → ℚ)
    (ist : (ℕ → ℚ) → (ℕ → ℚ) → (ℕ → ℚ) → (ℕ → ℚ) → ℚ)
    (data input : Mat) (mask : ℕ → ℕ → Bool) (T : ℕ) :
    Except SSMError (List (List ℚ)) :=
  if allMaskB mask T a.D then .ok (altLLArr a rexp dg ist data input T)
  else .error .missingData

/-- `AltRobustAutoRegressiveDiagonalNoiseObservations._m_step_ar`: the mask
completeness check sits in the data-collection loop, before any parameter
write, raising the missing-data error on an incomplete mask; with a
complete mask the inner EM loop runs. -/
def alt_m_step_ar (rexp rlog : ℚ → ℚ)
    (rstats : Mat → Ten3 → Mat → Mat → Ten4 → Ten3 → Ten4 × Ten3)
    (lsolve1 : Mat → (ℕ → ℚ) → ℕ → ℚ) (seqs : List SeqData)
    (num_em_iters : ℕ) (a : AltParams) : Except SSMError AltParams :=
  if (seqs.all fun s => allMaskB s.mask s.T a.D) then
    .ok (altMStepAR rexp rlog rstats lsolve1 seqs num_em_iters a)
  else .error .missingData

/-- Concrete stand-in for the external multivariate Student's-t
log-density. -/
def mvtW : (ℕ → ℚ) → (ℕ → ℚ) → Mat → ℚ → ℚ :=
  fun x mu S nu => x 0 + mu 0 + S 0 0 + nu

/-- Concrete stand-in for the external independent Student's-t
log-density. -/
def istW : (ℕ → ℚ) → (ℕ → ℚ) → (ℕ → ℚ) → (ℕ → ℚ) → ℚ :=
  fun x mu s nu => x 0 * mu 0 + s 0 + nu 0

lemma ARParams.musArAcc_eq_sum (p : ARParams) (data input : Mat) (k i d : ℕ)
    (n : ℕ) :
    p.musArAcc data input k i d n =
      (∑ m ∈ Finset.range p.M, input (p.lags + i) m * p.Vs k d m)
        + ∑ l ∈ Finset.range n, p.lagTerm data k i d l := by
  induction n with
  | zero => simp [ARParams.musArAcc]
  | succ n ih =>
      rw [Finset.sum_range_succ, ARParams.musArAcc, ih, add_assoc]

lemma getD_map_range {α : Type} (n i : ℕ) (f : ℕ → α) (dflt : α) (h : i < n) :
    ((List.range n).map f).getD i dflt = f i := by
  rw [List.getD_eq_getElem?_getD, List.getElem?_map, List.getElem?_range h]
  rfl

lemma length_map_range {α : Type} (n : ℕ) (f : ℕ → α) :
    ((List.range n).map f).length = n := by
  simp

lemma getD_append_left {α : Type} (l₁ l₂ : List α) (i : ℕ) (dflt : α)
    (h : i < l₁.length) : (l₁ ++ l₂).getD i dflt = l₁.getD i dflt := by
  rw [List.getD_eq_getElem?_getD, List.getElem?_append_left h,
    List.getD_eq_getElem?_getD]

lemma getD_append_right {α : Type} (l₁ l₂ : List α) (i : ℕ) (dflt : α)
    (h : l₁.length ≤ i) :
    (l₁ ++ l₂).getD i dflt = l₂.getD (i - l₁.length) dflt := by
  rw [List.getD_eq_getElem?_getD, List.getElem?_append_right h,
    List.getD_eq_getElem?_getD]

lemma computeMusArr_length (p : ARParams) (data input : Mat) (T : ℕ) :
    (computeMusArr p data input T).length = p.K := by
  simp [computeMusArr]

lemma computeMusArr_get3 (p : ARParams) (data input : Mat) (T : ℕ)
    (k t d : ℕ) (hk : k < p.K) (ht : t < T) (hd : d < p.D) (hT : p.lags ≤ T) :
    get3 (computeMusArr p data input T) k t d = p.computeMus data input k t d := by
  unfold get3 computeMusArr
  rw [getD_map_range _ _ _ _ hk]
  by_cases h : t < p.lags
  · rw [getD_append_left _ _ _ _ (by simpa using h),
      getD_map_range _ _ _ _ h, getD_map_range _ _ _ _ hd]
    simp [ARParams.computeMus, h]
  · rw [getD_append_right _ _ _ _ (by simpa using Nat.le_of_not_lt h),
      length_map_range, getD_map_range _ _ _ _ (by omega),
      getD_map_range _ _ _ _ hd]
    simp [ARParams.computeMus, h]

lemma computeMusIndepArr_length (q : IndepParams) (data input : Mat) (T : ℕ)
    (hT : q.lags ≤ T) :
    (computeMusIndepArr q data input T).length = T := by
  simp [computeMusIndepArr]
  omega

lemma computeMusIndepArr_get3 (q : IndepParams) (data input : Mat) (T : ℕ)
    (t k d : ℕ) (hk : k < q.K) (ht : t < T) (hd : d < q.D) :
    get3 (computeMusIndepArr q data input T) t k d
      = q.computeMusIndep data input t k d := by
  unfold get3 computeMusIndepArr
  by_cases h : t < q.lags
  · rw [getD_append_left _ _ _ _ (by simpa using h),
      getD_map_range _ _ _ _ h, getD_map_range _ _ _ _ hk,
      getD_map_range _ _ _ _ hd]
    simp [IndepParams.computeMusIndep, h]
  · rw [getD_append_right _ _ _ _ (by simpa using Nat.le_of_not_lt h),
      length_map_range, getD_map_range _ _ _ _ (by omega),
      getD_map_range _ _ _ _ hk, getD_map_range _ _ _ _ hd]
    simp [IndepParams.computeMusIndep, h]

lemma indepMusArAcc_eq_base (q : IndepParams) (hD : q.D = 1)
    (data input : Mat) (k i : ℕ) (n : ℕ) :
    q.indepMusArAcc data input k i 0 n = q.toBase.musArAcc data input k i 0 n := by
  induction n with
  | zero =>
      show _ = ∑ m ∈ Finset.range q.M, input (q.lags + i) m * q.Vs k 0 m
      exact Finset.sum_congr rfl (fun m _ => mul_comm _ _)
  | succ n ih =>
      show q.indepMusArAcc data input k i 0 n
            + q.AsFull k 0 n * data (q.lags - n - 1 + i) 0
          = q.toBase.musArAcc data input k i 0 n + q.toBase.lagTerm data k i 0 n
      rw [ih]
      congr 1
      show _ = ∑ j ∈ Finset.range q.D,
          data (q.lags - n - 1 + i) j * q.AsFull k 0 (n * q.D + j)
      rw [hD, Finset.sum_range_one, mul_one, Nat.add_zero, mul_comm]

lemma indepMusAR_eq_base (q : IndepParams) (hD : q.D = 1)
    (data input : Mat) (k i : ℕ) :
    q.indepMusAR data input k i 0 = q.toBase.musAR data input k i 0 := by
  unfold IndepParams.indepMusAR ARParams.musAR
  rw [indepMusArAcc_eq_base q hD]
  rfl

lemma llFullArr_length (g : ARGaussParams) (mvn : (ℕ → ℚ) → (ℕ → ℚ) → Mat → ℚ)
    (data input : Mat) (T : ℕ) (hT : g.lags ≤ T) :
    (llFullArr g mvn data input T).length = T := by
  simp [llFullArr]
  omega

lemma llFullArr_rows (g : ARGaussParams) (mvn : (ℕ → ℚ) → (ℕ → ℚ) → Mat → ℚ)
    (data input : Mat) (T : ℕ) :
    ∀ r ∈ llFullArr g mvn data input T, r.length = g.K := by
  intro r hr
  rcases List.mem_append.mp hr with h | h <;>
    · rcases List.mem_map.mp h with ⟨t, _, rfl⟩
      simp

lemma llFullArr_get_init (g : ARGaussParams)
    (mvn : (ℕ → ℚ) → (ℕ → ℚ) → Mat → ℚ) (data input : Mat) (T : ℕ)
    (t k : ℕ) (hT : g.lags ≤ T) (ht : t < g.lags) (hk : k < g.K) :
    get2 (llFullArr g mvn data input T) t k =
      mvn (fun d => data t d)
        (fun d => g.toARParams.computeMus data input k t d)
        (fun i j => g.Sigmas_init k i j) := by
  unfold get2 llFullArr
  rw [getD_append_left _ _ _ _ (by simp; omega),
    getD_map_range _ _ _ _ (by omega), getD_map_range _ _ _ _ hk]

lemma llFullArr_get_ar (g : ARGaussParams)
    (mvn : (ℕ → ℚ) → (ℕ → ℚ) → Mat → ℚ) (data input : Mat) (T : ℕ)
    (t k : ℕ) (hT : g.lags ≤ T) (ht1 : g.lags ≤ t) (ht2 : t < T) (hk : k < g.K) :
    get2 (llFullArr g mvn data input T) t k =
      mvn (fun d => data t d)
        (fun d => g.toARParams.computeMus data input k t d)
        (fun a b => g.Sigmas k a b) := by
  unfold get2 llFullArr
  rw [getD_append_right _ _ _ _ (by simp; omega), length_map_range]
  have hmin : min g.lags T = g.lags := by omega
  rw [hmin, getD_map_range _ _ _ _ (by omega), getD_map_range _ _ _ _ hk]
  have hidx : g.lags + (t - g.lags) = t := by omega
  rw [hidx]

lemma indepLL_length (q : IndepFullParams) (rexp : ℚ → ℚ)
    (dg : (ℕ → ℚ) → (ℕ → ℚ) → (ℕ → ℚ) → ℚ) (data input : Mat)
    (mask : ℕ → ℕ → Bool) (T : ℕ) (hT : q.lags ≤ T) :
    (indepLogLikelihoods q rexp dg data input mask T).length = T := by
  simp [indepLogLikelihoods]
  omega

lemma indepLL_rows (q : IndepFullParams) (rexp : ℚ → ℚ)
    (dg : (ℕ → ℚ) → (ℕ → ℚ) → (ℕ → ℚ) → ℚ) (data input : Mat)
    (mask : ℕ → ℕ → Bool) (T : ℕ) :
    ∀ r ∈ indepLogLikelihoods q rexp dg data input mask T, r.length = q.K := by
  intro r hr
  rcases List.mem_append.mp hr with h | h <;>
    · rcases List.mem_map.mp h with ⟨t, _, rfl⟩
      simp

lemma indepLL_get_init (q : IndepFullParams) (rexp : ℚ → ℚ)
    (dg : (ℕ → ℚ) → (ℕ → ℚ) → (ℕ → ℚ) → ℚ) (data input : Mat)
    (mask : ℕ → ℕ → Bool) (T : ℕ) (t k : ℕ)
    (hT : q.lags ≤ T) (ht : t < q.lags) (hk : k < q.K) :
    get2 (indepLogLikelihoods q rexp dg data input mask T) t k =
      dg (fun d => data t d)
        (fun d => q.toIndepParams.computeMusIndep data input t k d)
        (fun d => rexp (q._log_sigmasq_init k d)) := by
  unfold get2 indepLogLikelihoods
  rw [getD_append_left _ _ _ _ (by simp; omega),
    getD_map_range _ _ _ _ (by omega), getD_map_range _ _ _ _ hk]

lemma indepLL_get_ar (q : IndepFullParams) (rexp : ℚ → ℚ)
    (dg : (ℕ → ℚ) → (ℕ → ℚ) → (ℕ → ℚ) → ℚ) (data input : Mat)
    (mask : ℕ → ℕ → Bool) (T : ℕ) (t k : ℕ)
    (hT : q.lags ≤ T) (ht1 : q.lags ≤ t) (ht2 : t < T) (hk : k < q.K) :
    get2 (indepLogLikelihoods q rexp dg data input mask T) t k =
      dg (fun d => data t d)
        (fun d => q.toIndepParams.computeMusIndep data input t k d)
        (fun d => rexp (q._log_sigmasq k d)) := by
  unfold get2 indepLogLikelihoods
  rw [getD_append_right _ _ _ _ (by simp; omega), length_map_range]
  have hmin : min q.lags T = q.lags := by omega
  rw [hmin, getD_map_range _ _ _ _ (by omega), getD_map_range _ _ _ _ hk]
  have hidx : q.lags + (t - q.lags) = t := by omega
  rw [hidx]

lemma fallback_preserve (pickIdx : ℕ → ℕ) (noiseA noiseV : Ten3)
    (noiseB : Mat) (usedL : List ℕ) (l : List ℕ) (st : FitState) (j : ℕ)
    (hj : j ∉ l) :
    ((l.foldl (fallbackStep pickIdx noiseA noiseV noiseB usedL) st).As j
        = st.As j)
      ∧ ((l.foldl (fallbackStep pickIdx noiseA noiseV noiseB usedL) st).Vs j
        = st.Vs j)
      ∧ ((l.foldl (fallbackStep pickIdx noiseA noiseV noiseB usedL) st).bs j
        = st.bs j)
      ∧ ((l.foldl (fallbackStep pickIdx noiseA noiseV noiseB usedL) st).Sigmas j
        = st.Sigmas j) := by
  induction l generalizing st with
  | nil => exact ⟨rfl, rfl, rfl, rfl⟩
  | cons a l ih =>
      have hja : j ≠ a := fun h => hj (h ▸ List.mem_cons_self a l)
      have hjl : j ∉ l := fun h => hj (List.mem_cons_of_mem a h)
      simp only [List.foldl_cons]
      have hstep :
          (fallbackStep pickIdx noiseA noiseV noiseB usedL st a).As j = st.As j
          ∧ (fallbackStep pickIdx noiseA noiseV noiseB usedL st a).Vs j = st.Vs j
          ∧ (fallbackStep pickIdx noiseA noiseV noiseB usedL st a).bs j = st.bs j
          ∧ (fallbackStep pickIdx noiseA noiseV noiseB usedL st a).Sigmas j
              = st.Sigmas j := by
        unfold fallbackStep
        simp [hja]
      obtain ⟨e1, e2, e3, e4⟩ :=
        ih (fallbackStep pickIdx noiseA noiseV noiseB usedL st a) hjl
      exact ⟨e1.trans hstep.1, e2.trans hstep.2.1, e3.trans hstep.2.2.1,
        e4.trans hstep.2.2.2⟩

lemma fallback_sets (pickIdx : ℕ → ℕ) (noiseA noiseV : Ten3) (noiseB : Mat)
    (usedL : List ℕ) (l : List ℕ) (st : FitState) (k : ℕ) (hk : k ∈ l)
    (hnd : l.Nodup)
    (hi : usedL.getD (pickIdx k % usedL.length) 0 ∉ l) :
    ((l.foldl (fallbackStep pickIdx noiseA noiseV noiseB usedL) st).As k
        = fun d c => st.As (usedL.getD (pickIdx k % usedL.length) 0) d c
            + 1/100 * noiseA k d c)
      ∧ ((l.foldl (fallbackStep pickIdx noiseA noiseV noiseB usedL) st).Vs k
        = fun d m => st.Vs (usedL.getD (pickIdx k % usedL.length) 0) d m
            + 1/100 * noiseV k d m)
      ∧ ((l.foldl (fallbackStep pickIdx noiseA noiseV noiseB usedL) st).bs k
        = fun d => st.bs (usedL.getD (pickIdx k % usedL.length) 0) d
            + 1/100 * noiseB k d)
      ∧ ((l.foldl (fallbackStep pickIdx noiseA noiseV noiseB usedL) st).Sigmas k
        = st.Sigmas (usedL.getD (pickIdx k % usedL.length) 0)) := by
  induction l generalizing st with
  | nil => cases hk
  | cons a l ih =>
      rcases List.mem_cons.mp hk with rfl | hk2
      · have hknl : k ∉ l := (List.nodup_cons.mp hnd).1
        have hil : usedL.getD (pickIdx k % usedL.length) 0 ∉ l :=
          fun h => hi (List.mem_cons_of_mem k h)
        simp only [List.foldl_cons]
        obtain ⟨e1, e2, e3, e4⟩ := fallback_preserve pickIdx noiseA noiseV
          noiseB usedL l (fallbackStep pickIdx noiseA noiseV noiseB usedL st k)
          k hknl
        rw [e1, e2, e3, e4]
        unfold fallbackStep
        simp
      · have hka : k ≠ a := fun h =>
          (List.nodup_cons.mp hnd).1 (h ▸ hk2)
        have hia : usedL.getD (pickIdx k % usedL.length) 0 ≠ a :=
          fun h => hi (h ▸ List.mem_cons_self a l)
        have hil : usedL.getD (pickIdx k % usedL.length) 0 ∉ l :=
          fun h => hi (List.mem_cons_of_mem a h)
        simp only [List.foldl_cons]
        obtain ⟨e1, e2, e3, e4⟩ :=
          ih (fallbackStep pickIdx noiseA noiseV noiseB usedL st a) hk2
            (List.nodup_cons.mp hnd).2 hil
        have hstep :
            (fallbackStep pickIdx noiseA noiseV noiseB usedL st a).As
                (usedL.getD (pickIdx k % usedL.length) 0)
              = st.As (usedL.getD (pickIdx k % usedL.length) 0)
            ∧ (fallbackStep pickIdx noiseA noiseV noiseB usedL st a).Vs
                (usedL.getD (pickIdx k % usedL.length) 0)
              = st.Vs (usedL.getD (pickIdx k % usedL.length) 0)
            ∧ (fallbackStep pickIdx noiseA noiseV noiseB usedL st a).bs
                (usedL.getD (pickIdx k % usedL.length) 0)
              = st.bs (usedL.getD (pickIdx k % usedL.length) 0)
            ∧ (fallbackStep pickIdx noiseA noiseV noiseB usedL st a).Sigmas
                (usedL.getD (pickIdx k % usedL.length) 0)
              = st.Sigmas (usedL.getD (pickIdx k % usedL.length) 0) :=
          ⟨if_neg hia, if_neg hia, if_neg hia, if_neg hia⟩
        rw [e1, e2, e3, e4, hstep.1, hstep.2.1, hstep.2.2.1, hstep.2.2.2]
        exact ⟨rfl, rfl, rfl, rfl⟩

lemma robustMStepAR_succ (rexp : ℚ → ℚ) (cholQ : Mat → Mat)
    (bmahal : Mat → (ℕ → ℚ) → ℚ) (lsolve : Mat → Mat → Mat)
    (seqs : List SeqData) (J0 h0 : Option Ten3) (n : ℕ) (r : RobustParams) :
    robustMStepAR rexp cholQ bmahal lsolve seqs J0 h0 (n + 1) r
      = robustMStepIter rexp cholQ bmahal lsolve seqs J0 h0
          (robustMStepAR rexp cholQ bmahal lsolve seqs J0 h0 n r) := by
  induction n generalizing r with
  | zero => rfl
  | succ n ih =>
      show robustMStepAR rexp cholQ bmahal lsolve seqs J0 h0 (n + 1)
          (robustMStepIter rexp cholQ bmahal lsolve seqs J0 h0 r) = _
      rw [ih]
      rfl

lemma altMStepAR_succ (rexp rlog : ℚ → ℚ)
    (rstats : Mat → Ten3 → Mat → Mat → Ten4 → Ten3 → Ten4 × Ten3)
    (lsolve1 : Mat → (ℕ → ℚ) → ℕ → ℚ) (seqs : List SeqData) (n : ℕ)
    (a : AltParams) :
    altMStepAR rexp rlog rstats lsolve1 seqs (n + 1) a
      = altMStepIter rexp rlog rstats lsolve1 seqs
          (altMStepAR rexp rlog rstats lsolve1 seqs n a) := by
  induction n generalizing a with
  | zero => rfl
  | succ n ih =>
      show altMStepAR rexp rlog rstats lsolve1 seqs (n + 1)
          (altMStepIter rexp rlog rstats lsolve1 seqs a) = _
      rw [ih]
      rfl

lemma indepKStep_As (lsolve1 : Mat → (ℕ → ℚ) → ℕ → ℚ) (rlog : ℚ → ℚ)
    (d : ℕ) (rows : List RegRow) (q : IndepFullParams) (k : ℕ) :
    (indepKStep lsolve1 rlog d rows q k).map (fun r => r._As)
      = (indepKStep lsolve1 rlog d rows q k).map (fun _ => q._As) := by
  unfold indepKStep
  split
  · rfl
  · dsimp only
    split
    · rfl
    · rfl

lemma foldlM_As_const (f : IndepFullParams → ℕ → Except SSMError IndepFullParams)
    (hf : ∀ q a, (f q a).map (fun r => r._As) = (f q a).map (fun _ => q._As)) :
    ∀ (l : List ℕ) (q : IndepFullParams),
      (List.foldlM f q l).map (fun r => r._As)
        = (List.foldlM f q l).map (fun _ => q._As) := by
  intro l
  induction l with
  | nil => intro q; rfl
  | cons a l ih =>
      intro q
      rw [List.foldlM_cons]
      cases hfa : f q a with
      | error e => rfl
      | ok q2 =>
          have hAs : q2._As = q._As := by
            have h2 := hf q a
            rw [hfa] at h2
            simpa [Except.map] using h2
          show Except.map (fun r => r._As) (List.foldlM f q2 l)
              = Except.map (fun _ => q._As) (List.foldlM f q2 l)
          rw [ih q2, hAs]

lemma indepDStep_As (lsolve1 : Mat → (ℕ → ℚ) → ℕ → ℚ) (rlog : ℚ → ℚ)
    (seqs : List SeqData) (q : IndepFullParams) (d : ℕ) :
    (indepDStep lsolve1 rlog seqs q d).map (fun r => r._As)
      = (indepDStep lsolve1 rlog seqs q d).map (fun _ => q._As) := by
  simp only [indepDStep]
  split
  · rfl
  · split
    · rfl
    · exact foldlM_As_const _ (fun q2 k => indepKStep_As lsolve1 rlog d _ q2 k)
        (List.range q.K) q

lemma mStepIndep_As (lsolve1 : Mat → (ℕ → ℚ) → ℕ → ℚ) (rlog : ℚ → ℚ)
    (seqs : List SeqData) (q : IndepFullParams) :
    (mStepIndep lsolve1 rlog seqs q).map (fun r => r._As)
      = (mStepIndep lsolve1 rlog seqs q).map (fun _ => q._As) := by
  unfold mStepIndep
  exact foldlM_As_const _ (fun q2 d => indepDStep_As lsolve1 rlog seqs q2 d)
    (List.range q.D) q

lemma indepKStep_ne_missing (lsolve1 : Mat → (ℕ → ℚ) → ℕ → ℚ) (rlog : ℚ → ℚ)
    (d : ℕ) (rows : List RegRow) (q : IndepFullParams) (k : ℕ) :
    indepKStep lsolve1 rlog d rows q k ≠ .error .missingData := by
  unfold indepKStep
  split
  · intro h
    exact Except.noConfusion h
  · dsimp only
    split
    · intro h
      exact SSMError.noConfusion (Except.error.inj h)
    · intro h
      exact Except.noConfusion h

lemma foldlM_ne_missing (f : IndepFullParams → ℕ → Except SSMError IndepFullParams)
    (hf : ∀ q a, f q a ≠ .error .missingData) :
    ∀ (l : List ℕ) (q : IndepFullParams),
      List.foldlM f q l ≠ .error SSMError.missingData := by
  intro l
  induction l with
  | nil => exact fun q h => Except.noConfusion h
  | cons a l ih =>
      intro q h
      rw [List.foldlM_cons] at h
      cases hfa : f q a with
      | error e =>
          rw [hfa] at h
          have h2 : (Except.error e : Except SSMError IndepFullParams)
              = .error .missingData := h
          exact hf q a (by rw [hfa, Except.error.inj h2])
      | ok q2 =>
          rw [hfa] at h
          exact ih q2 h

lemma indepDStep_ne_missing (lsolve1 : Mat → (ℕ → ℚ) → ℕ → ℚ)
    (rlog : ℚ → ℚ) (seqs : List SeqData) (q : IndepFullParams) (d : ℕ) :
    indepDStep lsolve1 rlog seqs q d ≠ .error .missingData := by
  simp only [indepDStep]
  split
  · intro h
    exact SSMError.noConfusion (Except.error.inj h)
  · split
    · intro h
      exact Except.noConfusion h
    · exact foldlM_ne_missing _
        (fun q2 k => indepKStep_ne_missing lsolve1 rlog d _ q2 k)
        (List.range q.K) q

lemma mStepIndep_ne_missing (lsolve1 : Mat → (ℕ → ℚ) → ℕ → ℚ)
    (rlog : ℚ → ℚ) (seqs : List SeqData) (q : IndepFullParams) :
    mStepIndep lsolve1 rlog seqs q ≠ .error .missingData := by
  unfold mStepIndep
  exact foldlM_ne_missing _
    (fun q2 d => indepDStep_ne_missing lsolve1 rlog seqs q2 d)
    (List.range q.D) q

lemma ARParams.permute_inv_base (p : ARParams) (perm inv : ℕ → ℕ)
    (hinv : ∀ k, perm (inv k) = k) :
    (p.permute perm).permute inv = p := by
  cases p
  simp only [ARParams.permute]
  congr 1 <;> funext k <;> simp [hinv]

lemma ARGaussParams.permute_inv_gauss (g : ARGaussParams) (perm inv : ℕ → ℕ)
    (hinv : ∀ k, perm (inv k) = k) :
    (g.permute perm).permute inv = g := by
  cases g
  simp only [ARGaussParams.permute]
  congr 1
  · exact ARParams.permute_inv_base _ perm inv hinv
  · funext k
    simp [hinv]

lemma ARDiagParams.permute_inv_diag (p : ARDiagParams) (perm inv : ℕ → ℕ)
    (hinv : ∀ k, perm (inv k) = k) :
    (p.permute perm).permute inv = p := by
  cases p
  simp only [ARDiagParams.permute]
  congr 1
  · exact ARParams.permute_inv_base _ perm inv hinv
  · funext k
    simp [hinv]
  · funext k
    simp [hinv]

lemma RobustParams.permute_inv_robust (r : RobustParams) (perm inv : ℕ → ℕ)
    (hinv : ∀ k, perm (inv k) = k) :
    (r.permute perm).permute inv = r := by
  cases r
  simp only [RobustParams.permute]
  congr 1
  · exact ARGaussParams.permute_inv_gauss _ perm inv hinv
  · funext k
    simp [hinv]

lemma IndepFullParams.permute_inv_indep (q : IndepFullParams)
    (perm inv : ℕ → ℕ) (hinv : ∀ k, perm (inv k) = k) :
    (q.permute perm).permute inv = q := by
  cases q with
  | mk base s1 s2 =>
      cases base
      simp only [IndepFullParams.permute]
      congr 1
      · congr 1 <;> funext k <;> simp [hinv]
      · funext k
        simp [hinv]
      · funext k
        simp [hinv]

/-!
Verification development for the AR-HMM observation-model layer
(`src/ssm/observations/arhmm.py`).

The Python classes are shallowly embedded over `ℚ`.  Arrays are embedded as
total functions from indices to `ℚ` (with the dimensions carried separately)
when only the entries matter, and as nested `List`s when the shape of the
result is itself part of a claim.  External library routines (density
evaluators, the batched linear solver, Cholesky factorization, Mahalanobis
distance, `log`/`exp`, and the random-number generator) are out of scope per
the specification and are taken as explicit function parameters, so every
theorem quantifies over them or instantiates them concretely.
-/

/-- C1.  For every state `k` and time `t` in a sequence of length `T ≥ lags`,
the base-class mean predictor `_compute_mus` returns `mu_init[k]` for
`t < lags`, and for `t ≥ lags` the value
`∑ l=0..lags-1 of A_k-block-l · x[t-l-1]  +  V_k · u[t]  +  b_k`
(in the claim's 1-based indexing, `∑ l=1..L A_k^(l) x[t-l] + V_k u[t] + b_k`). -/
theorem C1_compute_mus (p : ARParams) (data input : Mat) (T k t d : ℕ)
    (hT : p.lags ≤ T) (ht : t < T) :
    p.computeMus data input k t d =
      if t < p.lags then p.mu_init k d
      else (∑ l ∈ Finset.range p.lags, ∑ j ∈ Finset.range p.D,
              p.As k d (l * p.D + j) * data (t - (l + 1)) j)
           + (∑ m ∈ Finset.range p.M, p.Vs k d m * input t m)
           + p.bs k d := by
  unfold ARParams.computeMus
  by_cases h : t < p.lags
  · simp [h]
  · simp only [h, if_false]
    have hlt : p.lags ≤ t := Nat.le_of_not_lt h
    unfold ARParams.musAR
    rw [ARParams.musArAcc_eq_sum]
    have hin : p.lags + (t - p.lags) = t := by omega
    rw [hin]
    have hlag : ∀ l ∈ Finset.range p.lags,
        p.lagTerm data k (t - p.lags) d l =
          ∑ j ∈ Finset.range p.D, p.As k d (l * p.D + j) * data (t - (l + 1)) j := by
      intro l hl
      have hl' : l < p.lags := Finset.mem_range.mp hl
      unfold ARParams.lagTerm
      have hidx : p.lags - l - 1 + (t - p.lags) = t - (l + 1) := by omega
      rw [hidx]
      exact Finset.sum_congr rfl (fun j _ => mul_comm _ _)
    rw [Finset.sum_congr rfl hlag]
    have hv : (∑ m ∈ Finset.range p.M, input t m * p.Vs k d m)
        = ∑ m ∈ Finset.range p.M, p.Vs k d m * input t m :=
      Finset.sum_congr rfl (fun m _ => mul_comm _ _)
    rw [hv]
    ring

theorem C1_compute_mus_witness :
    pW.lags ≤ 3 ∧ 2 < 3 ∧
      pW.computeMus dataW inputW 0 2 0 =
        if 2 < pW.lags then pW.mu_init 0 0
        else (∑ l ∈ Finset.range pW.lags, ∑ j ∈ Finset.range pW.D,
                pW.As 0 0 (l * pW.D + j) * dataW (2 - (l + 1)) j)
             + (∑ m ∈ Finset.range pW.M, pW.Vs 0 0 m * inputW 2 m)
             + pW.bs 0 0 :=
  ⟨by decide, by decide, C1_compute_mus pW dataW inputW 3 0 2 0 (by decide) (by decide)⟩

/-- C9 counterexample.  On a sequence of length T=3 with K=1, the base-class
`_compute_mus` returns an array with outer length K=1 (layout `(K, T, D)`)
while the independent-variant `_compute_mus` returns outer length T=3
(layout `(T, K, D)`): the shapes and axis layouts are NOT equal, so the two
arrays differ. -/
theorem C9_layout_cex :
    (computeMusArr qW.toBase dataW inputW 3).length = 1
      ∧ (computeMusIndepArr qW dataW inputW 3).length = 3
      ∧ computeMusArr qW.toBase dataW inputW 3
          ≠ computeMusIndepArr qW dataW inputW 3 := by
  refine ⟨by decide, by decide, fun h => ?_⟩
  have h1 : (computeMusArr qW.toBase dataW inputW 3).length = 1 := by decide
  have h3 : (computeMusIndepArr qW dataW inputW 3).length = 3 := by decide
  rw [h, h3] at h1
  exact absurd h1 (by decide)

/-- C9 amended.  The independent-variant `_compute_mus` returns the
axes-transposed layout `(T, K, D)` of the base class's `(K, T, D)`; when
`D = 1` (the only case in which the dense `As` getter column read in the
source recovers the per-dimension lag scalars), corresponding entries agree
under the transposition: `indep[t][k][d] = base[k][t][d]`. -/
theorem C9_compute_mus_transposed (q : IndepParams) (data input : Mat)
    (T t k d : ℕ) (hD : q.D = 1) (hT : q.lags ≤ T) (ht : t < T) (hk : k < q.K)
    (hd : d < q.D) :
    get3 (computeMusIndepArr q data input T) t k d
        = get3 (computeMusArr q.toBase data input T) k t d
      ∧ (computeMusIndepArr q data input T).length = T
      ∧ (computeMusArr q.toBase data input T).length = q.K := by
  refine ⟨?_, computeMusIndepArr_length q data input T hT,
    computeMusArr_length q.toBase data input T⟩
  have hd0 : d = 0 := by omega
  subst hd0
  rw [computeMusIndepArr_get3 q data input T t k 0 hk ht hd,
    computeMusArr_get3 q.toBase data input T k t 0 hk ht hd hT]
  have hbase : q.toBase.computeMus data input k t 0
      = if t < q.lags then q.mu_init k 0
        else q.toBase.musAR data input k (t - q.lags) 0 := rfl
  rw [hbase]
  unfold IndepParams.computeMusIndep
  by_cases h : t < q.lags
  · simp only [h, if_true]
  · simp only [h, if_false]
    exact indepMusAR_eq_base q hD data input k (t - q.lags)

theorem C9_compute_mus_transposed_witness :
    qW.D = 1 ∧ qW.lags ≤ 3 ∧ 2 < 3 ∧ 0 < qW.K ∧ 0 < qW.D ∧
      (get3 (computeMusIndepArr qW dataW inputW 3) 2 0 0
          = get3 (computeMusArr qW.toBase dataW inputW 3) 0 2 0
        ∧ (computeMusIndepArr qW dataW inputW 3).length = 3
        ∧ (computeMusArr qW.toBase dataW inputW 3).length = qW.K) :=
  ⟨by decide, by decide, by decide, by decide, by decide,
    C9_compute_mus_transposed qW dataW inputW 3 2 0 0 (by decide) (by decide)
      (by decide) (by decide) (by decide)⟩

/-- C2.  For any sequence of length `T ≥ lags` with an all-true mask:
the full-covariance `log_likelihoods` succeeds and returns a matrix with
exactly `T` rows and `K` columns whose rows `0..lags-1` are evaluated with
the initial covariance `Sigmas_init` and whose rows `lags..T-1` are
evaluated with the steady-state covariance `Sigmas`; and likewise the
independent variant's `log_likelihoods` uses `sigmasq_init` for the first
`lags` rows and `sigmasq` for the rest. -/
theorem C2_log_likelihood_row_ranges (g : ARGaussParams) (q : IndepFullParams)
    (mvn : (ℕ → ℚ) → (ℕ → ℚ) → Mat → ℚ)
    (dg : (ℕ → ℚ) → (ℕ → ℚ) → (ℕ → ℚ) → ℚ) (rexp : ℚ → ℚ)
    (data input : Mat) (mask : ℕ → ℕ → Bool) (T : ℕ)
    (hT : g.lags ≤ T) (hTq : q.lags ≤ T)
    (hm : allMaskB mask T g.D = true) :
    (log_likelihoods g mvn data input mask T
        = .ok (llFullArr g mvn data input T))
      ∧ (llFullArr g mvn data input T).length = T
      ∧ (∀ r ∈ llFullArr g mvn data input T, r.length = g.K)
      ∧ (∀ t k, t < g.lags → k < g.K →
          get2 (llFullArr g mvn data input T) t k =
            mvn (fun d => data t d)
              (fun d => g.toARParams.computeMus data input k t d)
              (fun i j => g.Sigmas_init k i j))
      ∧ (∀ t k, g.lags ≤ t → t < T → k < g.K →
          get2 (llFullArr g mvn data input T) t k =
            mvn (fun d => data t d)
              (fun d => g.toARParams.computeMus data input k t d)
              (fun a b => g.Sigmas k a b))
      ∧ (indepLogLikelihoods q rexp dg data input mask T).length = T
      ∧ (∀ r ∈ indepLogLikelihoods q rexp dg data input mask T,
          r.length = q.K)
      ∧ (∀ t k, t < q.lags → k < q.K →
          get2 (indepLogLikelihoods q rexp dg data input mask T) t k =
            dg (fun d => data t d)
              (fun d => q.toIndepParams.computeMusIndep data input t k d)
              (fun d => rexp (q._log_sigmasq_init k d)))
      ∧ (∀ t k, q.lags ≤ t → t < T → k < q.K →
          get2 (indepLogLikelihoods q rexp dg data input mask T) t k =
            dg (fun d => data t d)
              (fun d => q.toIndepParams.computeMusIndep data input t k d)
              (fun d => rexp (q._log_sigmasq k d))) :=
  ⟨by simp [log_likelihoods, hm],
    llFullArr_length g mvn data input T hT,
    llFullArr_rows g mvn data input T,
    fun t k ht hk => llFullArr_get_init g mvn data input T t k hT ht hk,
    fun t k ht1 ht2 hk => llFullArr_get_ar g mvn data input T t k hT ht1 ht2 hk,
    indepLL_length q rexp dg data input mask T hTq,
    indepLL_rows q rexp dg data input mask T,
    fun t k ht hk => indepLL_get_init q rexp dg data input mask T t k hTq ht hk,
    fun t k ht1 ht2 hk => indepLL_get_ar q rexp dg data input mask T t k hTq ht1 ht2 hk⟩

theorem C2_log_likelihood_row_ranges_witness :
    gW.lags ≤ 3 ∧ qFW.lags ≤ 3 ∧ allMaskB maskTrueW 3 gW.D = true ∧
      ((log_likelihoods gW mvnW dataW inputW maskTrueW 3
          = .ok (llFullArr gW mvnW dataW inputW 3))
        ∧ (llFullArr gW mvnW dataW inputW 3).length = 3
        ∧ (∀ r ∈ llFullArr gW mvnW dataW inputW 3, r.length = gW.K)
        ∧ (∀ t k, t < gW.lags → k < gW.K →
            get2 (llFullArr gW mvnW dataW inputW 3) t k =
              mvnW (fun d => dataW t d)
                (fun d => gW.toARParams.computeMus dataW inputW k t d)
                (fun i j => gW.Sigmas_init k i j))
        ∧ (∀ t k, gW.lags ≤ t → t < 3 → k < gW.K →
            get2 (llFullArr gW mvnW dataW inputW 3) t k =
              mvnW (fun d => dataW t d)
                (fun d => gW.toARParams.computeMus dataW inputW k t d)
                (fun a b => gW.Sigmas k a b))
        ∧ (indepLogLikelihoods qFW id dgW dataW inputW maskTrueW 3).length = 3
        ∧ (∀ r ∈ indepLogLikelihoods qFW id dgW dataW inputW maskTrueW 3,
            r.length = qFW.K)
        ∧ (∀ t k, t < qFW.lags → k < qFW.K →
            get2 (indepLogLikelihoods qFW id dgW dataW inputW maskTrueW 3) t k =
              dgW (fun d => dataW t d)
                (fun d => qFW.toIndepParams.computeMusIndep dataW inputW t k d)
                (fun d => id (qFW._log_sigmasq_init k d)))
        ∧ (∀ t k, qFW.lags ≤ t → t < 3 → k < qFW.K →
            get2 (indepLogLikelihoods qFW id dgW dataW inputW maskTrueW 3) t k =
              dgW (fun d => dataW t d)
                (fun d => qFW.toIndepParams.computeMusIndep dataW inputW t k d)
                (fun d => id (qFW._log_sigmasq k d)))) :=
  ⟨by decide, by decide, by decide,
    C2_log_likelihood_row_ranges gW qFW mvnW dgW id dataW inputW maskTrueW 3
      (by decide) (by decide) (by decide)⟩

/-- C5.  In `AutoRegressiveObservations.m_step` the conditional at the top
does select a supplied prior (`J = J0`, `h = h0` — second conjunct), but the
unconditional recomputation of the ridge prior immediately afterwards
(source lines 220-224) discards it: the accumulated normal equations (third
conjunct) and the entire M-step result (first conjunct) are identical with
and without a supplied prior, so the solved parameters do NOT depend on
`J0`, `h0`, contradicting the claim. -/
theorem C5_supplied_prior_ignored (g : ARGaussParams)
    (lsolve : Mat → Mat → Mat) (cholQ : Mat → Mat) (pickIdx : ℕ → ℕ)
    (noiseA noiseV : Ten3) (noiseB : Mat) (seqs : List SeqData)
    (J0 h0 : Ten3) :
    m_step g lsolve cholQ pickIdx noiseA noiseV noiseB seqs (some J0) (some h0)
        = m_step g lsolve cholQ pickIdx noiseA noiseV noiseB seqs none none
      ∧ (g.mStepPriorCond (some J0) (some h0)).1 = J0
      ∧ g.mStepJ seqs (some J0) (some h0) = g.mStepJ seqs none none :=
  ⟨rfl, rfl, rfl⟩

/-- C6 (amended to the Gaussian full/diagonal M-step implementation, i.e.
`AutoRegressiveObservations.m_step`).  If the responsibilities give state `k`
zero weight everywhere while some state `k2` has mass above 1, then `m_step`
returns successfully (no raise; all parameters are rationals in this model,
so none is NaN/Inf), and there is a used state `i` (mass above 1) such that
state `k`'s `A`/`V`/`b` equal state `i`'s solved values plus `0.01` times
the Gaussian perturbation draws, and state `k`'s stored covariance factor —
hence its covariance — equals state `i`'s exactly. -/
theorem C6_unused_state_fallback (g : ARGaussParams)
    (lsolve : Mat → Mat → Mat) (cholQ : Mat → Mat) (pickIdx : ℕ → ℕ)
    (noiseA noiseV : Ten3) (noiseB : Mat) (seqs : List SeqData) (k k2 : ℕ)
    (hmask : (seqs.all fun s => allMaskB s.mask s.T g.D) = true)
    (hk : k < g.K)
    (hzero : ∀ s ∈ seqs, ∀ t, s.Ez t k = 0)
    (hk2 : k2 < g.K) (hused : 1 < g.mStepUsage seqs k2) :
    ∃ g2, m_step g lsolve cholQ pickIdx noiseA noiseV noiseB seqs none none
          = .ok g2
      ∧ ∃ i, 1 < g.mStepUsage seqs i
        ∧ (∀ d c, g2.As k d c = g2.As i d c + 1/100 * noiseA k d c)
        ∧ (∀ d m, g2.Vs k d m = g2.Vs i d m + 1/100 * noiseV k d m)
        ∧ (∀ d, g2.bs k d = g2.bs i d + 1/100 * noiseB k d)
        ∧ g2.sqrt_Sigmas k = g2.sqrt_Sigmas i
        ∧ (∀ a b, g2.Sigmas k a b = g2.Sigmas i a b) := by
  have husage0 : g.mStepUsage seqs k = 0 := by
    unfold ARGaussParams.mStepUsage
    apply List.sum_eq_zero
    intro x hx
    rcases List.mem_map.mp hx with ⟨s, hs, rfl⟩
    apply Finset.sum_eq_zero
    intro i _
    unfold ezrow
    rw [hzero s hs]
  have hkun : k ∈ mStepUnused g seqs := by
    unfold mStepUnused
    refine List.mem_filter.mpr ⟨List.mem_range.mpr hk, ?_⟩
    rw [husage0]
    norm_num
  have hk2u : k2 ∈ mStepUsed g seqs := by
    unfold mStepUsed
    refine List.mem_filter.mpr ⟨List.mem_range.mpr hk2, ?_⟩
    simpa using hused
  have hunne : (mStepUnused g seqs).isEmpty = false := by
    cases h : (mStepUnused g seqs).isEmpty
    · rfl
    · exact absurd (List.isEmpty_iff.mp h ▸ hkun) (List.not_mem_nil k)
  have husedne : (mStepUsed g seqs).isEmpty = false := by
    cases h : (mStepUsed g seqs).isEmpty
    · rfl
    · exact absurd (List.isEmpty_iff.mp h ▸ hk2u) (List.not_mem_nil k2)
  have hlen : 0 < (mStepUsed g seqs).length :=
    List.length_pos.mpr (List.ne_nil_of_mem hk2u)
  have hmod : pickIdx k % (mStepUsed g seqs).length < (mStepUsed g seqs).length :=
    Nat.mod_lt _ hlen
  have himem : (mStepUsed g seqs).getD
      (pickIdx k % (mStepUsed g seqs).length) 0 ∈ mStepUsed g seqs := by
    rw [List.getD_eq_getElem?_getD, List.getElem?_eq_getElem hmod]
    exact List.getElem_mem hmod
  have hiu : 1 < g.mStepUsage seqs ((mStepUsed g seqs).getD
      (pickIdx k % (mStepUsed g seqs).length) 0) := by
    have h2 := (List.mem_filter.mp himem).2
    simpa using h2
  have hinotun : (mStepUsed g seqs).getD
      (pickIdx k % (mStepUsed g seqs).length) 0 ∉ mStepUnused g seqs := by
    intro hmem
    have h2 := (List.mem_filter.mp hmem).2
    simp only [decide_eq_true_eq] at h2
    linarith
  have hnd : (mStepUnused g seqs).Nodup := (List.nodup_range g.K).filter _
  obtain ⟨eAs, eVs, ebs, eSig⟩ := fallback_sets pickIdx noiseA noiseV noiseB
    (mStepUsed g seqs) (mStepUnused g seqs)
    (mStepFit g lsolve seqs none none) k hkun hnd hinotun
  obtain ⟨pAs, pVs, pbs, pSig⟩ := fallback_preserve pickIdx noiseA noiseV
    noiseB (mStepUsed g seqs) (mStepUnused g seqs)
    (mStepFit g lsolve seqs none none)
    ((mStepUsed g seqs).getD (pickIdx k % (mStepUsed g seqs).length) 0)
    hinotun
  have hm : m_step g lsolve cholQ pickIdx noiseA noiseV noiseB seqs none none
      = .ok (storeFit g cholQ
          ((mStepUnused g seqs).foldl
            (fallbackStep pickIdx noiseA noiseV noiseB (mStepUsed g seqs))
            (mStepFit g lsolve seqs none none))) := by
    unfold m_step
    rw [if_pos hmask]
    simp only [hunne, husedne, Bool.false_eq_true, if_false]
  refine ⟨_, hm, (mStepUsed g seqs).getD
      (pickIdx k % (mStepUsed g seqs).length) 0, hiu, ?_, ?_, ?_, ?_, ?_⟩
  · intro d c
    show (_ : FitState).As k d c = (_ : FitState).As _ d c + 1/100 * noiseA k d c
    rw [eAs, pAs]
  · intro d m
    show (_ : FitState).Vs k d m = (_ : FitState).Vs _ d m + 1/100 * noiseV k d m
    rw [eVs, pVs]
  · intro d
    show (_ : FitState).bs k d = (_ : FitState).bs _ d + 1/100 * noiseB k d
    rw [ebs, pbs]
  · show (fun a b => cholQ _ a b) = (fun a b => cholQ _ a b)
    rw [eSig, pSig]
  · intro a b
    show (∑ r ∈ Finset.range g.D, cholQ _ a r * cholQ _ b r)
        = ∑ r ∈ Finset.range g.D, cholQ _ a r * cholQ _ b r
    rw [eSig, pSig]

theorem C6_unused_state_fallback_witness :
    (([seq6].all fun s => allMaskB s.mask s.T g6.D) = true
        ∧ 1 < g6.K ∧ 0 < g6.K ∧ 1 < g6.mStepUsage [seq6] 0)
      ∧ (∃ g2, m_step g6 lsolveW cholW (fun _ => 0) (fun _ _ _ => 1)
            (fun _ _ _ => 1) (fun _ _ => 1) [seq6] none none = .ok g2
          ∧ ∃ i, 1 < g6.mStepUsage [seq6] i
            ∧ (∀ d c, g2.As 1 d c = g2.As i d c + 1/100 * (1:ℚ))
            ∧ (∀ d m, g2.Vs 1 d m = g2.Vs i d m + 1/100 * (1:ℚ))
            ∧ (∀ d, g2.bs 1 d = g2.bs i d + 1/100 * (1:ℚ))
            ∧ g2.sqrt_Sigmas 1 = g2.sqrt_Sigmas i
            ∧ (∀ a b, g2.Sigmas 1 a b = g2.Sigmas i a b)) :=
  ⟨⟨by decide, by decide, by decide,
      by norm_num [ARGaussParams.mStepUsage, ezrow, seq6, g6,
        Finset.sum_range_succ]⟩,
    C6_unused_state_fallback g6 lsolveW cholW (fun _ => 0) (fun _ _ _ => 1)
      (fun _ _ _ => 1) (fun _ _ => 1) [seq6] 1 0 (by decide) (by decide)
      (fun s hs t => by rw [List.mem_singleton.mp hs]; rfl)
      (by decide)
      (by norm_num [ARGaussParams.mStepUsage, ezrow, seq6, g6,
        Finset.sum_range_succ])⟩

/-- C4.  In every inner-EM iteration of the robust M-steps the `taus` are
recomputed from the parameters current at that iteration (first and third
conjuncts: running `n+1` iterations is one full iteration body applied to
the `n`-iteration state, and the body evaluates `robustTau`/`AltParams.tau`
at its input state), and the E-step posterior mean is `alpha/beta` with
`alpha = ν/2 + D/2` and `beta = ν/2 + (1/2)·(squared Mahalanobis distance)`
for the multivariate variants (second conjunct, given that the external
`batch_mahalanobis ∘ cholesky` composition computes the squared Mahalanobis
distance `mahalSq`), and `alpha = ν/2 + 1/2`,
`beta = ν/2 + (1/2)·(squared residual)/variance` per dimension for the
independent-t variant (fourth conjunct). -/
theorem C4_inner_em_tau (rexp rlog : ℚ → ℚ) (cholQ : Mat → Mat)
    (bmahal : Mat → (ℕ → ℚ) → ℚ) (mahalSq : Mat → (ℕ → ℚ) → ℚ)
    (lsolve : Mat → Mat → Mat)
    (rstats : Mat → Ten3 → Mat → Mat → Ten4 → Ten3 → Ten4 × Ten3)
    (lsolve1 : Mat → (ℕ → ℚ) → ℕ → ℚ) (seqs : List SeqData)
    (J0 h0 : Option Ten3)
    (hmahal : ∀ S v, bmahal (cholQ S) v = mahalSq S v) :
    (∀ n r, robustMStepAR rexp cholQ bmahal lsolve seqs J0 h0 (n + 1) r
        = robustMStepIter rexp cholQ bmahal lsolve seqs J0 h0
            (robustMStepAR rexp cholQ bmahal lsolve seqs J0 h0 n r))
      ∧ (∀ (r : RobustParams) (s : SeqData) (i k : ℕ),
          robustTau r rexp cholQ bmahal s i k
            = specTauFull (r.nus rexp k) r.D
                (mahalSq (fun a b => r.Sigmas k a b)
                  (fun d => yrow r.lags s i d
                    - robustMusPred r.toARGaussParams s i k d)))
      ∧ (∀ n a, altMStepAR rexp rlog rstats lsolve1 seqs (n + 1) a
          = altMStepIter rexp rlog rstats lsolve1 seqs
              (altMStepAR rexp rlog rstats lsolve1 seqs n a))
      ∧ (∀ (a : AltParams) (s : SeqData) (i k d : ℕ),
          a.tau rexp s i k d
            = specTauIndep (a.nus rexp k d)
                ((yrow a.lags s i d - a.musPred s i k d)^2)
                (a.sigmasq rexp k d)) :=
  ⟨fun n r => robustMStepAR_succ rexp cholQ bmahal lsolve seqs J0 h0 n r,
    fun r s i k => by unfold robustTau specTauFull; rw [hmahal],
    fun n a => altMStepAR_succ rexp rlog rstats lsolve1 seqs n a,
    fun a s i k d => by
      unfold AltParams.tau specTauIndep
      rw [mul_div_assoc]⟩

theorem C4_inner_em_tau_witness :
    (∀ S v, mahW (cholW S) v = mahW S v)
      ∧ ((∀ n r, robustMStepAR id cholW mahW lsolveW [seq6] none none (n + 1) r
            = robustMStepIter id cholW mahW lsolveW [seq6] none none
                (robustMStepAR id cholW mahW lsolveW [seq6] none none n r))
        ∧ (∀ (r : RobustParams) (s : SeqData) (i k : ℕ),
            robustTau r id cholW mahW s i k
              = specTauFull (r.nus id k) r.D
                  (mahW (fun a b => r.Sigmas k a b)
                    (fun d => yrow r.lags s i d
                      - robustMusPred r.toARGaussParams s i k d)))
        ∧ (∀ n a, altMStepAR id id rstatsW lsolve1W [seq6] (n + 1) a
            = altMStepIter id id rstatsW lsolve1W [seq6]
                (altMStepAR id id rstatsW lsolve1W [seq6] n a))
        ∧ (∀ (a : AltParams) (s : SeqData) (i k d : ℕ),
            a.tau id s i k d
              = specTauIndep (a.nus id k d)
                  ((yrow a.lags s i d - a.musPred s i k d)^2)
                  (a.sigmasq id k d))) :=
  ⟨fun _ _ => rfl,
    C4_inner_em_tau id id cholW mahW mahW lsolveW rstatsW lsolve1W [seq6]
      none none (fun _ _ => rfl)⟩

/-- C6 counterexample.  The claim quantifies over EVERY variant's `m_step`,
but the robust variants' `_m_step_ar` has no unused-state fallback at all:
its residual weights start at zero, so a state with zero responsibility
mass divides `0/0` (NaN in numpy; `0` in this total model over `ℚ`) and its
stored covariance is the bare `1e-8` regularizer, NOT a copy of the used
state's covariance.  Concretely, with state 1 unused (zero mass) and state
0 used (mass 2 > 1), the robust M-step stores covariance `1e-8` for state 1
and `39/4 + 1e-8` for state 0 — they differ, falsifying the claim's
covariance-copy conjunct for this variant. -/
theorem C6_robust_no_fallback_cex :
    (∀ t, seq6.Ez t 1 = 0)
      ∧ 1 < r6.mStepUsage [seq6] 0
      ∧ (robust_m_step_ar id cholW (fun _ _ => 0) (fun _ _ _ _ => 0)
            [seq6] 1 none none r6).map
          (fun r2 => (r2.sqrt_Sigmas 1 0 0, r2.sqrt_Sigmas 0 0 0))
        = .ok (1/100000000, 39/4 + 1/100000000)
      ∧ ((1:ℚ)/100000000 ≠ 39/4 + 1/100000000) := by
  refine ⟨fun t => rfl,
    by norm_num [ARGaussParams.mStepUsage, ezrow, seq6, r6, g6,
      Finset.sum_range_succ], ?_, by norm_num⟩
  norm_num [robust_m_step_ar, robustMStepAR, robustMStepIter, robustTau,
    robustMusPred, robustAfull, RobustParams.nus, ARGaussParams.Sigmas,
    xrow, yrow, ezrow, seq6, r6, g6, cholW, allMaskB, Finset.sum_range_succ,
    dataW, inputW, maskTrueW, Except.map]

/-- C7.  The stored per-dimension lag coefficients `_As` are NEVER updated
by `IndependentAutoRegressiveObservations.m_step` (first conjunct: mapping
the result through `_As` is the same as mapping it through the constant old
`_As`), because every `self.As[...] = ...` write lands in the fresh array
built by the `As` property getter.  Concretely (second conjunct), on a
low-mass (state 0, dimension 0) pair the claim requires the stored lag
coefficient to become 1, but the call returns with `_As` still `19/20`
while the stored `bs` and `_log_sigmasq` do take their fallback values 0;
and `19/20 ≠ 1` (third conjunct). -/
theorem C7_stored_As_never_updated :
    (∀ (lsolve1 : Mat → (ℕ → ℚ) → ℕ → ℚ) (rlog : ℚ → ℚ)
        (seqs : List SeqData) (q : IndepFullParams),
        (mStepIndep lsolve1 rlog seqs q).map (fun r => r._As)
          = (mStepIndep lsolve1 rlog seqs q).map (fun _ => q._As))
      ∧ (mStepIndep lsolve1W id [seq7] q7).map
            (fun r => (r._As 0 0 0, r.bs 0 0, r._log_sigmasq 0 0))
          = .ok (19/20, 0, 0)
      ∧ ((19:ℚ)/20 ≠ 1) := by
  refine ⟨fun lsolve1 rlog seqs q => mStepIndep_As lsolve1 rlog seqs q,
    ?_, by norm_num⟩
  norm_num [mStepIndep, indepDStep, indepKStep, indepRows, indepXrow,
    List.foldlM, seq7, q7, dataW, inputW, maskTrueW, lsolve1W, Except.map,
    List.flatMap, Finset.sum_range_succ, List.range_succ, List.range_zero,
    List.map_append, List.sum_append, List.map_cons, List.sum_cons,
    List.map_nil, List.sum_nil, Function.comp]

/-- C3 (amended).  The full-covariance Gaussian `log_likelihoods` and
`m_step` (also inherited by the diagonal variant), the robust mixin's
`log_likelihoods` and `_m_step_ar`, and the Alt-robust variant's
`log_likelihoods` and `_m_step_ar` all raise the missing-data error when
any mask entry is false — the checks run before any parameter is touched,
so an error return carries no mutation — and with an all-true mask each of
them completes with an ok result and raises no missing-data error (the
Gaussian `m_step` can still raise the unrelated `ValueError` of
`npr.choice`, never the missing-data error).  The independent variant
however never raises a missing-data error: its `log_likelihoods` does not
consult the mask at all (the result is identical for any two masks) and its
`m_step` filters incomplete dimensions instead of raising. -/
theorem C3_missing_data_errors (g : ARGaussParams)
    (mvn : (ℕ → ℚ) → (ℕ → ℚ) → Mat → ℚ)
    (mvt : (ℕ → ℚ) → (ℕ → ℚ) → Mat → ℚ → ℚ) (data input : Mat)
    (mask : ℕ → ℕ → Bool) (T : ℕ) (lsolve : Mat → Mat → Mat)
    (cholQ : Mat → Mat) (pickIdx : ℕ → ℕ) (noiseA noiseV : Ten3)
    (noiseB : Mat) (seqs : List SeqData) (J0 h0 : Option Ten3)
    (r : RobustParams) (a : AltParams) (rexp rlog : ℚ → ℚ)
    (bmahal : Mat → (ℕ → ℚ) → ℚ)
    (rstats : Mat → Ten3 → Mat → Mat → Ten4 → Ten3 → Ten4 × Ten3)
    (n : ℕ) (q : IndepFullParams)
    (dg : (ℕ → ℚ) → (ℕ → ℚ) → (ℕ → ℚ) → ℚ)
    (ist : (ℕ → ℚ) → (ℕ → ℚ) → (ℕ → ℚ) → (ℕ → ℚ) → ℚ)
    (lsolve1 : Mat → (ℕ → ℚ) → ℕ → ℚ) :
    ((allMaskB mask T g.D = false →
        log_likelihoods g mvn data input mask T = .error .missingData)
      ∧ (allMaskB mask T g.D = true →
        log_likelihoods g mvn data input mask T
          = .ok (llFullArr g mvn data input T)))
    ∧ (((seqs.all fun s => allMaskB s.mask s.T g.D) = false →
        m_step g lsolve cholQ pickIdx noiseA noiseV noiseB seqs J0 h0
          = .error .missingData)
      ∧ ((seqs.all fun s => allMaskB s.mask s.T g.D) = true →
        m_step g lsolve cholQ pickIdx noiseA noiseV noiseB seqs J0 h0
          ≠ .error .missingData))
    ∧ ((allMaskB mask T r.D = false →
        robust_log_likelihoods r rexp mvn mvt data input mask T
          = .error .missingData)
      ∧ (allMaskB mask T r.D = true →
        robust_log_likelihoods r rexp mvn mvt data input mask T
          = .ok (robustLLArr r rexp mvn mvt data input T)))
    ∧ (((seqs.all fun s => allMaskB s.mask s.T r.D) = false →
        robust_m_step_ar rexp cholQ bmahal lsolve seqs n J0 h0 r
          = .error .missingData)
      ∧ ((seqs.all fun s => allMaskB s.mask s.T r.D) = true →
        robust_m_step_ar rexp cholQ bmahal lsolve seqs n J0 h0 r
          = .ok (robustMStepAR rexp cholQ bmahal lsolve seqs J0 h0 n r)))
    ∧ ((allMaskB mask T a.D = false →
        alt_log_likelihoods a rexp dg ist data input mask T
          = .error .missingData)
      ∧ (allMaskB mask T a.D = true →
        alt_log_likelihoods a rexp dg ist data input mask T
          = .ok (altLLArr a rexp dg ist data input T)))
    ∧ (((seqs.all fun s => allMaskB s.mask s.T a.D) = false →
        alt_m_step_ar rexp rlog rstats lsolve1 seqs n a
          = .error .missingData)
      ∧ ((seqs.all fun s => allMaskB s.mask s.T a.D) = true →
        alt_m_step_ar rexp rlog rstats lsolve1 seqs n a
          = .ok (altMStepAR rexp rlog rstats lsolve1 seqs n a)))
    ∧ (∀ mask2, indepLogLikelihoods q rexp dg data input mask T
        = indepLogLikelihoods q rexp dg data input mask2 T)
    ∧ (mStepIndep lsolve1 rlog seqs q ≠ .error .missingData) := by
  refine ⟨⟨fun h => by simp [log_likelihoods, h],
      fun h => by simp [log_likelihoods, h]⟩,
    ⟨fun h => by simp [m_step, h], fun h => ?_⟩,
    ⟨fun h => by simp [robust_log_likelihoods, h],
      fun h => by simp [robust_log_likelihoods, h]⟩,
    ⟨fun h => by simp [robust_m_step_ar, h],
      fun h => by simp [robust_m_step_ar, h]⟩,
    ⟨fun h => by simp [alt_log_likelihoods, h],
      fun h => by simp [alt_log_likelihoods, h]⟩,
    ⟨fun h => by simp [alt_m_step_ar, h],
      fun h => by simp [alt_m_step_ar, h]⟩,
    fun mask2 => rfl, mStepIndep_ne_missing lsolve1 rlog seqs q⟩
  simp only [m_step, h, if_true]
  split
  · intro hcon
    exact Except.noConfusion hcon
  · split
    · intro hcon
      exact SSMError.noConfusion (Except.error.inj hcon)
    · intro hcon
      exact Except.noConfusion hcon

/-- C3 counterexample.  On a sequence whose mask is false at `t = 0`, the
full-covariance variant's `log_likelihoods` and `m_step` raise the
missing-data error as the claim says — but the independent variant's
`log_likelihoods` raises nothing: it has no mask assertion and returns a
full 3-row likelihood matrix, and its `m_step` likewise completes without a
missing-data error.  The claim's universal quantification over every
variant is therefore false. -/
theorem C3_missing_data_cex :
    allMaskB maskBadW 3 gW.D = false
      ∧ log_likelihoods gW mvnW dataW inputW maskBadW 3 = .error .missingData
      ∧ m_step gW lsolveW cholW (fun _ => 0) (fun _ _ _ => 1) (fun _ _ _ => 1)
          (fun _ _ => 1) [seqBadW] none none = .error .missingData
      ∧ (indepLogLikelihoods qFW id dgW dataW inputW maskBadW 3).length = 3
      ∧ mStepIndep lsolve1W id [seqBadW] qFW ≠ .error .missingData := by
  refine ⟨by decide, ?_, ?_, by decide,
    mStepIndep_ne_missing lsolve1W id [seqBadW] qFW⟩
  · have hb : allMaskB maskBadW 3 gW.D = false := by decide
    simp [log_likelihoods, hb]
  · have hb : ([seqBadW].all fun s => allMaskB s.mask s.T gW.D) = false := by
      decide
    simp [m_step, hb]

theorem C3_missing_data_errors_witness :
    log_likelihoods gW mvnW dataW inputW maskBadW 3 = .error .missingData
      ∧ log_likelihoods gW mvnW dataW inputW maskTrueW 3
          = .ok (llFullArr gW mvnW dataW inputW 3)
      ∧ m_step gW lsolveW cholW (fun _ => 0) (fun _ _ _ => 1) (fun _ _ _ => 1)
          (fun _ _ => 1) [seqBadW] none none = .error .missingData
      ∧ robust_log_likelihoods r6 id mvnW mvtW dataW inputW maskBadW 3
          = .error .missingData
      ∧ robust_log_likelihoods r6 id mvnW mvtW dataW inputW maskTrueW 3
          = .ok (robustLLArr r6 id mvnW mvtW dataW inputW 3)
      ∧ robust_m_step_ar id cholW mahW lsolveW [seqBadW] 1 none none r6
          = .error .missingData
      ∧ robust_m_step_ar id cholW mahW lsolveW [seq6] 1 none none r6
          = .ok (robustMStepAR id cholW mahW lsolveW [seq6] none none 1 r6)
      ∧ alt_log_likelihoods aW id dgW istW dataW inputW maskBadW 3
          = .error .missingData
      ∧ alt_log_likelihoods aW id dgW istW dataW inputW maskTrueW 3
          = .ok (altLLArr aW id dgW istW dataW inputW 3)
      ∧ alt_m_step_ar id id rstatsW lsolve1W [seqBadW] 1 aW
          = .error .missingData
      ∧ alt_m_step_ar id id rstatsW lsolve1W [seq6] 1 aW
          = .ok (altMStepAR id id rstatsW lsolve1W [seq6] 1 aW)
      ∧ (∀ mask2, indepLogLikelihoods qFW id dgW dataW inputW maskBadW 3
          = indepLogLikelihoods qFW id dgW dataW inputW mask2 3)
      ∧ mStepIndep lsolve1W id [seqBadW] qFW ≠ .error .missingData := by
  have HA := C3_missing_data_errors gW mvnW mvtW dataW inputW maskBadW 3
    lsolveW cholW (fun _ => 0) (fun _ _ _ => 1) (fun _ _ _ => 1)
    (fun _ _ => 1) [seqBadW] none none r6 aW id id mahW rstatsW 1 qFW dgW
    istW lsolve1W
  have HB := C3_missing_data_errors gW mvnW mvtW dataW inputW maskTrueW 3
    lsolveW cholW (fun _ => 0) (fun _ _ _ => 1) (fun _ _ _ => 1)
    (fun _ _ => 1) [seq6] none none r6 aW id id mahW rstatsW 1 qFW dgW
    istW lsolve1W
  exact ⟨HA.1.1 (by decide), HB.1.2 (by decide), HA.2.1.1 (by decide),
    HA.2.2.1.1 (by decide), HB.2.2.1.2 (by decide),
    HA.2.2.2.1.1 (by decide), HB.2.2.2.1.2 (by decide),
    HA.2.2.2.2.1.1 (by decide), HB.2.2.2.2.1.2 (by decide),
    HA.2.2.2.2.2.1.1 (by decide), HB.2.2.2.2.2.1.2 (by decide),
    HA.2.2.2.2.2.2.1, HA.2.2.2.2.2.2.2⟩
/-- C8.  Permuting by `perm` and then by an inverse `inv` (any right
inverse of `perm` on the state indices) restores every parameter exactly
for the base class, the full-covariance Gaussian class, the diagonal-noise
class, the robust mixin and the independent variant — but
`AltRobustAutoRegressiveDiagonalNoiseObservations.permute` raises
`AttributeError` on EVERY call (it reads the nonexistent attribute
`inv_nus`), so for that variant the claim fails: the first permute already
raises instead of completing, and `_log_nus` is never reindexed. -/
theorem C8_permute_roundtrip (perm inv : ℕ → ℕ)
    (hinv : ∀ k, perm (inv k) = k) (p : ARParams) (g : ARGaussParams)
    (dp : ARDiagParams) (r : RobustParams) (q : IndepFullParams)
    (a : AltParams) :
    (p.permute perm).permute inv = p
      ∧ (g.permute perm).permute inv = g
      ∧ (dp.permute perm).permute inv = dp
      ∧ (r.permute perm).permute inv = r
      ∧ (q.permute perm).permute inv = q
      ∧ (∀ perm2, a.permute perm2 = .error .attributeError) :=
  ⟨ARParams.permute_inv_base p perm inv hinv,
    ARGaussParams.permute_inv_gauss g perm inv hinv,
    ARDiagParams.permute_inv_diag dp perm inv hinv,
    RobustParams.permute_inv_robust r perm inv hinv,
    IndepFullParams.permute_inv_indep q perm inv hinv,
    fun _ => rfl⟩

theorem C8_permute_roundtrip_witness :
    (∀ k, swapW (swapW k) = k)
      ∧ ((pW.permute swapW).permute swapW = pW
        ∧ (gW.permute swapW).permute swapW = gW
        ∧ (dpW.permute swapW).permute swapW = dpW
        ∧ (r6.permute swapW).permute swapW = r6
        ∧ (qFW.permute swapW).permute swapW = qFW
        ∧ (∀ perm2, aW.permute perm2 = .error .attributeError)) :=
  have hswap : ∀ k, swapW (swapW k) = k := by
    intro k
    unfold swapW
    rcases Nat.eq_zero_or_pos k with h0 | h0
    · simp [h0]
    · rcases Nat.lt_or_ge k 2 with h2 | h2
      · have : k = 1 := by omega
        simp [this]
      · have hk0 : k ≠ 0 := by omega
        have hk1 : k ≠ 1 := by omega
        simp [hk0, hk1]
  ⟨hswap, C8_permute_roundtrip swapW swapW hswap pW gW dpW r6 qFW aW⟩

/-- C10 counterexample.  The matrix `[[1, 10], [10, 1]]` is not positive
definite — the quadratic form at the nonzero vector `(1, -1)` is `-18 < 0`
— yet the diagonal-variance `Sigmas` setter ACCEPTS it (its diagonal is
positive; off-diagonal entries are never examined) and stores the diagonal
`[1, 1]`: no error is raised, contradicting the claim. -/
theorem C10_nonPD_accepted_cex :
    quadForm [[1, 10], [10, 1]] [1, -1] = -18
      ∧ ([1, -1] : List ℚ) ≠ [0, 0]
      ∧ Sigmas_setter_diag 1 2 id [[[1, 10], [10, 1]]] = .ok [[1, 1]] := by
  refine ⟨?_, by simp, ?_⟩
  · norm_num [quadForm, get2, Finset.sum_range_succ]
  · norm_num [Sigmas_setter_diag, shape3Ok, diagOf, allPos2, List.all,
      List.range_succ, List.range_zero, List.map_append, List.map_cons,
      List.map_nil]

/-- C10 (amended).  The diagonal-noise setters raise `AssertionError` on a
wrong shape or a non-positive (diagonal) entry — before anything is stored,
so a failed call leaves the stored parameters unchanged — and accept any
matrix whose DIAGONAL is positive, storing the (log) diagonal so that the
getter returns exactly the supplied variances; off-diagonal entries are
never examined (see the counterexample).  The full-covariance setter
asserts the shape and otherwise stores the per-state external Cholesky
factorization, whose failure on a non-decomposable matrix propagates before
the store. -/
theorem C10_setter_validation (K D : ℕ) (rlog rexp : ℚ → ℚ)
    (cholM : List (List ℚ) → Except SSMError (List (List ℚ)))
    (value3 : List (List (List ℚ))) (value2 : List (List ℚ))
    (hexp : ∀ x : ℚ, 0 < x → rexp (rlog x) = x) :
    (shape3Ok value3 K D = false →
        Sigmas_setter_diag K D rlog value3 = .error .assertionError)
      ∧ (shape3Ok value3 K D = true → allPos2 (value3.map diagOf) = false →
        Sigmas_setter_diag K D rlog value3 = .error .assertionError)
      ∧ (shape3Ok value3 K D = true → allPos2 (value3.map diagOf) = true →
        (Sigmas_setter_diag K D rlog value3).map (sigmasq_getter rexp)
          = .ok (value3.map diagOf))
      ∧ (shape2Ok value2 K D = false →
        sigmasq_setter K D rlog value2 = .error .assertionError)
      ∧ (shape2Ok value2 K D = true → allPos2 value2 = false →
        sigmasq_setter K D rlog value2 = .error .assertionError)
      ∧ (shape2Ok value2 K D = true → allPos2 value2 = true →
        (sigmasq_setter K D rlog value2).map (sigmasq_getter rexp)
          = .ok value2)
      ∧ (shape3Ok value3 K D = false →
        Sigmas_setter_full K D cholM value3 = .error .assertionError)
      ∧ (shape3Ok value3 K D = true →
        Sigmas_setter_full K D cholM value3 = value3.mapM cholM) := by
  have hmaps : ∀ (v : List (List ℚ)), (∀ r ∈ v, ∀ x ∈ r, (0:ℚ) < x) →
      (v.map fun r => r.map rlog).map (fun r => r.map rexp) = v := by
    intro v hv
    rw [List.map_map]
    have : ∀ r ∈ v, ((fun r => List.map rexp r) ∘ fun r => List.map rlog r) r
        = r := by
      intro r hr
      show (r.map rlog).map rexp = r
      rw [List.map_map]
      have : ∀ x ∈ r, (rexp ∘ rlog) x = x := fun x hx =>
        hexp x (hv r hr x hx)
      rw [List.map_congr_left this]
      exact List.map_id' r
    rw [List.map_congr_left this]
    exact List.map_id' v
  have hall : ∀ (v : List (List ℚ)), allPos2 v = true →
      ∀ r ∈ v, ∀ x ∈ r, (0:ℚ) < x := by
    intro v hv r hr x hx
    have h1 := List.all_eq_true.mp hv r hr
    have h2 := List.all_eq_true.mp h1 x hx
    exact of_decide_eq_true h2
  refine ⟨fun h => by simp [Sigmas_setter_diag, h],
    fun h1 h2 => ?_, fun h1 h2 => ?_,
    fun h => by simp [sigmasq_setter, h],
    fun h1 h2 => ?_, fun h1 h2 => ?_,
    fun h => by simp [Sigmas_setter_full, h],
    fun h => by simp [Sigmas_setter_full, h]⟩
  · unfold Sigmas_setter_diag
    rw [if_neg (by simp [h1])]
    show (if ¬ allPos2 (value3.map diagOf) = true then _ else _) = _
    rw [if_pos (by simp [h2])]
  · unfold Sigmas_setter_diag
    rw [if_neg (by simp [h1])]
    show Except.map (sigmasq_getter rexp)
        (if ¬ allPos2 (value3.map diagOf) = true
         then Except.error SSMError.assertionError
         else Except.ok ((value3.map diagOf).map fun r => r.map rlog))
      = .ok (value3.map diagOf)
    rw [if_neg (by simp [h2])]
    show Except.ok (((value3.map diagOf).map fun r => r.map rlog).map
        fun r => r.map rexp) = .ok (value3.map diagOf)
    rw [hmaps (value3.map diagOf) (hall _ h2)]
  · unfold sigmasq_setter
    rw [if_neg (by simp [h1]), if_pos (by simp [h2])]
  · unfold sigmasq_setter
    rw [if_neg (by simp [h1]), if_neg (by simp [h2])]
    show Except.ok ((value2.map fun r => r.map rlog).map fun r => r.map rexp)
        = .ok value2
    rw [hmaps value2 (hall _ h2)]

theorem C10_setter_validation_witness :
    shape3Ok [[[4]]] 1 1 = true ∧ allPos2 ([[[4]]].map diagOf) = true
      ∧ shape2Ok [[9]] 1 1 = true ∧ allPos2 [[9]] = true
      ∧ (Sigmas_setter_diag 1 1 id [[[4]]]).map (sigmasq_getter id)
          = .ok ([[[4]]].map diagOf)
      ∧ (sigmasq_setter 1 1 id [[9]]).map (sigmasq_getter id) = .ok [[9]]
      ∧ Sigmas_setter_full 1 1 (fun S => .ok S) [[[4]]]
          = [[[4]]].mapM (fun S => .ok S) :=
  have h1 : shape3Ok [[[4]]] 1 1 = true := by decide
  have h2 : allPos2 ([[[4]]].map diagOf) = true := by
    norm_num [allPos2, diagOf, List.all, get2]
  have h3 : shape2Ok [[9]] 1 1 = true := by decide
  have h4 : allPos2 [[9]] = true := by norm_num [allPos2, List.all]
  ⟨h1, h2, h3, h4,
    (C10_setter_validation 1 1 id id (fun S => .ok S) [[[4]]] [[9]]
      (fun x _ => rfl)).2.2.1 h1 h2,
    (C10_setter_validation 1 1 id id (fun S => .ok S) [[[4]]] [[9]]
      (fun x _ => rfl)).2.2.2.2.2.1 h3 h4,
    (C10_setter_validation 1 1 id id (fun S => .ok S) [[[4]]] [[9]]
      (fun x _ => rfl)).2.2.2.2.2.2.2 h1⟩
